import Mathlib

/-!
# Verification of the CDDL JSON validation engine

A shallow embedding of `src/validation/json.rs`: the recursive validator that
checks a decoded JSON value tree against a parsed CDDL syntax tree.  The
validation functions are translated directly from the Rust source; since the
Rust functions can recurse unboundedly through named rule references, every
recursive validation function takes an explicit fuel parameter and returns a
distinguished `fuelOut` outcome when the recursion budget is exhausted.  Rust
panics (`unimplemented!`) are modelled by a distinguished `panic` outcome that
propagates through every caller, exactly as a Rust panic unwinds.

`f64` values are modelled as exact rationals: the claims under study only use
floating-point numbers at magnitudes where the relevant `f64` operations
(comparison, subtraction of nearby small values) are exact.
-/

set_option maxHeartbeats 1000000

namespace CddlJson

/-- Occurrence indicator (`ast::Occur`): `?`, `*`, `+`, or an exact inclusive
range with independently optional bounds. -/
inductive Occur where
  | Optional
  | ZeroOrMore
  | OneOrMore
  | Exact (lower : Option Nat) (upper : Option Nat)
deriving DecidableEq

/-- Identifier (`ast::Identifier`); `(ident.0).0` in the source is the name. -/
structure Identifier where
  name : String
deriving DecidableEq

/-- A `serde_json::Number` (default features): an unsigned 64-bit integer, a
negative signed 64-bit integer, or a finite double modelled as an exact
rational. -/
inductive JNumber where
  | posInt (n : Nat) (h : n < 2 ^ 64)
  | negInt (z : Int) (hl : -(2 ^ 63) ≤ z) (hu : z < 0)
  | float (q : ℚ)

/-- `serde_json::Number::as_u64`. -/
def JNumber.as_u64 : JNumber → Option Nat
  | .posInt n _ => some n
  | .negInt _ _ _ => none
  | .float _ => none

/-- `serde_json::Number::as_i64`: a positive integer converts when it does not
exceed `i64::MAX`. -/
def JNumber.as_i64 : JNumber → Option Int
  | .posInt n _ => if n ≤ 2 ^ 63 - 1 then some (n : Int) else none
  | .negInt z _ _ => some z
  | .float _ => none

/-- `serde_json::Number::as_f64`: always succeeds for default-feature
`serde_json` numbers (conversion modelled exactly). -/
def JNumber.as_f64 : JNumber → Option ℚ
  | .posInt n _ => some (n : ℚ)
  | .negInt z _ _ => some (z : ℚ)
  | .float q => some q

/-- A `serde_json::Value` tree. Objects are key-unique association lists. -/
inductive Value where
  | Null
  | Bool (b : Bool)
  | Number (n : JNumber)
  | String (s : String)
  | Array (vs : List Value)
  | Object (om : List (String × Value))

/-- `serde_json::Map::get`: first binding of the key. -/
def objGet : List (String × Value) → String → Option Value
  | [], _ => none
  | (k, v) :: rest, key => if k = key then some v else objGet rest key

/-- The `JSONError` struct of `validation/json.rs`. -/
structure JSONError where
  expected_memberkey : Option String
  expected_value : String
  actual_memberkey : Option String
  actual_value : Value

/-- The `validation::Error` variants constructed by the JSON validator
(`Target`, `Syntax`, `Occurrence`, `MultiError`).  The enum lives in
`validation/mod.rs`, outside the provided sources; its variants are modelled
from the spec's error taxonomy and from their construction sites in
`json.rs`. -/
inductive Err where
  | Target (e : JSONError)
  | SyntaxError (s : String)
  | Occurrence (s : String)
  | MultiError (errors : List Err)

/-- Outcome of a validation call: Rust `Result<(), Error>` plus the two
modelling outcomes `panic` (a Rust panic) and `fuelOut` (recursion budget of
the shallow embedding exhausted; the Rust code would recurse further). -/
inductive VRes where
  | ok
  | err (e : Err)
  | panic (msg : String)
  | fuelOut

/-- `true` exactly on `err`. -/
def VRes.isErr : VRes → Bool
  | .err _ => true
  | _ => false

/-- `true` exactly on `panic`. -/
def VRes.isPanic : VRes → Bool
  | .panic _ => true
  | _ => false

/-- A result that is settled: success or a structured error, neither a panic
nor an exhausted recursion budget. -/
def VRes.settled : VRes → Bool
  | .ok => true
  | .err _ => true
  | _ => false

/-- Outcome of the internal `all`/`any` iterations of
`validate_group_choice`: a boolean verdict together with the errors pushed
into the surrounding accumulator, or a propagated panic / fuel exhaustion. -/
inductive LoopRes where
  | res (b : Bool) (errs : List Err)
  | panic (msg : String)
  | fuelOut

mutual

/-- `ast::Type`: ordered `Type1` alternatives (type choices). -/
inductive Ty where
  | mk (alternatives : List Type1)

/-- `ast::Type1`; only its `type2` field is consulted by the validator. -/
inductive Type1 where
  | mk (type2 : Type2)

/-- The `ast::Type2` variants consulted by `json.rs`; `Unsupported` stands
for every remaining grammar construct, all of which reach the catch-all
`_ =>` arm of `validate_type2`. -/
inductive Type2 where
  | TextValue (t : String)
  | IntValue (i : Int)
  | UintValue (u : Nat)
  | FloatValue (f : ℚ)
  | Typename (tn : Identifier)
  | Array (g : Group)
  | Map (g : Group)
  | Unsupported (descr : String)

/-- `ast::Group`: ordered group-choice alternatives. -/
inductive Group where
  | mk (choices : List GroupChoice)

/-- `ast::GroupChoice`: ordered sequence of group entries. -/
inductive GroupChoice where
  | mk (entries : List GroupEntry)

/-- `ast::GroupEntry`: keyed value entry, named reference, or inline group. -/
inductive GroupEntry where
  | ValueMemberKey (occur : Option Occur) (member_key : Option MemberKey)
      (entry_type : Ty)
  | TypeGroupname (occur : Option Occur) (name : Identifier)
  | InlineGroup (occur : Option Occur) (g : Group)

/-- `ast::MemberKey`: a typed key (`Type1` plus cut flag), a bareword, or the
remaining value-key form (reaching the catch-all arm of
`validate_group_entry`). -/
inductive MemberKey where
  | Type1 (t1 : Type1) (cut : Bool)
  | Bareword (ident : Identifier)
  | Value (v : String)

end

/-- `ast::TypeRule`: a named type definition. -/
structure TypeRule where
  name : Identifier
  value : Ty

/-- `ast::GroupRule`: a named reusable group entry. -/
structure GroupRule where
  name : Identifier
  entry : GroupEntry

/-- `ast::Rule`: `Rule::Type` or `Rule::Group` (constructor names suffixed
with `_` because `Type` is reserved in Lean). -/
inductive Rule where
  | Type_ (tr : TypeRule)
  | Group_ (gr : GroupRule)

/-- `is_type_json_prelude` from `json.rs`. -/
def is_type_json_prelude (t : String) : Bool :=
  t = "any" ∨ t = "uint" ∨ t = "nint" ∨ t = "tstr" ∨ t = "text" ∨
  t = "number" ∨ t = "float16" ∨ t = "float32" ∨ t = "float64" ∨
  t = "float16-32" ∨ t = "float32-64" ∨ t = "float" ∨ t = "false" ∨
  t = "true" ∨ t = "bool" ∨ t = "nil" ∨ t = "null"

/-- Modelled from the spec: rendering of a rational standing in for an `f64`
literal (the `Display` impls live in `ast.rs`, which is not among the
provided sources). -/
def ratToString (q : ℚ) : String :=
  toString q.num ++ "/" ++ toString q.den

mutual

/-- Modelled from the spec: `Display for ast::Type` (in `ast.rs`, not among
the provided sources) — alternatives joined by `/`; a single typename
alternative renders as the bare identifier, which is what
`is_type_json_prelude(&vmke.entry_type.to_string())` relies on. -/
def tyToString : Ty → String
  | .mk alternatives => type1ListToString alternatives

/-- Modelled from the spec: the ` / `-joined rendering of type choices. -/
def type1ListToString : List Type1 → String
  | [] => ""
  | [t1] => type1ToString t1
  | t1 :: rest => type1ToString t1 ++ " / " ++ type1ListToString rest

/-- Modelled from the spec: `Display for ast::Type1`. -/
def type1ToString : Type1 → String
  | .mk t2 => type2ToString t2

/-- Modelled from the spec: `Display for ast::Type2` (text literals quoted,
numeric literals in decimal, typenames as the bare identifier, inline
arrays/maps bracketed). -/
def type2ToString : Type2 → String
  | .TextValue t => "\"" ++ t ++ "\""
  | .IntValue i => toString i
  | .UintValue u => toString u
  | .FloatValue f => ratToString f
  | .Typename tn => tn.name
  | .Array g => "[" ++ groupToString g ++ "]"
  | .Map g => "\x7b" ++ groupToString g ++ "\x7d"
  | .Unsupported descr => descr

/-- Modelled from the spec: `Display for ast::Group` — group choices joined
by `//`. -/
def groupToString : Group → String
  | .mk choices => groupChoiceListToString choices

/-- Modelled from the spec: the ` // `-joined rendering of group choices. -/
def groupChoiceListToString : List GroupChoice → String
  | [] => ""
  | [gc] => groupChoiceToString gc
  | gc :: rest => groupChoiceToString gc ++ " // " ++ groupChoiceListToString rest

/-- Modelled from the spec: `Display for ast::GroupChoice` — entries joined
by commas. -/
def groupChoiceToString : GroupChoice → String
  | .mk entries => groupEntryListToString entries

/-- Modelled from the spec: the comma-joined rendering of group entries. -/
def groupEntryListToString : List GroupEntry → String
  | [] => ""
  | [ge] => groupEntryToString ge
  | ge :: rest => groupEntryToString ge ++ ", " ++ groupEntryListToString rest

/-- Modelled from the spec: `Display for ast::GroupEntry`. -/
def groupEntryToString : GroupEntry → String
  | .ValueMemberKey _ (some mk) entry_type =>
      memberKeyToString mk ++ " " ++ tyToString entry_type
  | .ValueMemberKey _ none entry_type => tyToString entry_type
  | .TypeGroupname _ name => name.name
  | .InlineGroup _ g => "(" ++ groupToString g ++ ")"

/-- Modelled from the spec: `Display for ast::MemberKey` — a bareword key
renders as the identifier followed by `:` (the rendered key names the key). -/
def memberKeyToString : MemberKey → String
  | .Type1 t1 _ => type1ToString t1 ++ " =>"
  | .Bareword ident => ident.name ++ ":"
  | .Value v => v

end

/-- Modelled from the spec: the stable textual rendering of a JSON value used
inside diagnostic messages (`serde_json` rendering, not among the provided
sources). -/
def jnumberToString : JNumber → String
  | .posInt n _ => toString n
  | .negInt z _ _ => toString z
  | .float q => ratToString q

mutual

/-- Modelled from the spec: rendering of a `serde_json::Value`. -/
def valueToString : Value → String
  | .Null => "null"
  | .Bool true => "true"
  | .Bool false => "false"
  | .Number n => jnumberToString n
  | .String s => "\"" ++ s ++ "\""
  | .Array vs => "[" ++ valueListToString vs ++ "]"
  | .Object om => "\x7b" ++ objListToString om ++ "\x7d"

/-- Modelled from the spec: comma-joined rendering of array elements. -/
def valueListToString : List Value → String
  | [] => ""
  | [v] => valueToString v
  | v :: rest => valueToString v ++ "," ++ valueListToString rest

/-- Modelled from the spec: comma-joined rendering of object members. -/
def objListToString : List (String × Value) → String
  | [] => ""
  | [(k, v)] => "\"" ++ k ++ "\":" ++ valueToString v
  | (k, v) :: rest =>
      "\"" ++ k ++ "\":" ++ valueToString v ++ "," ++ objListToString rest

end

/-- `f64::EPSILON` as an exact rational. -/
def f64Epsilon : ℚ := 1 / 2 ^ 52

/-- `expect_null` from `json.rs`. -/
def expect_null (ident : String) : VRes :=
  if ident = "null" ∨ ident = "nil" then .ok
  else .err (.Target ⟨none, ident, none, Value.Null⟩)

/-- `str::parse::<bool>`: only the exact strings `true` and `false` parse. -/
def parseBool (s : String) : Option Bool :=
  if s = "true" then some true
  else if s = "false" then some false
  else none

/-- `expect_bool` from `json.rs`. -/
def expect_bool (ident : String) (value : Value) : VRes :=
  match value with
  | .Bool b =>
    if ident = "bool" then .ok
    else
      match parseBool ident with
      | some bfs =>
        if bfs = b then .ok
        else .err (.Target ⟨none, ident, none, value⟩)
      | none => .err (.Target ⟨none, ident, none, value⟩)
  | _ => .err (.Target ⟨none, ident, none, value⟩)

/-- `validate_numeric_data_type` from `json.rs`: numeric-subtype matching of
a declared identifier against a number. -/
def validate_numeric_data_type (expected_memberkey actual_memberkey : Option String)
    (ident : String) (value : Value) : VRes :=
  match value with
  | .Number n =>
    if ident = "uint" then
      match n.as_u64 with
      | some _ => .ok
      | none => .err (.Target ⟨expected_memberkey, ident, actual_memberkey, value⟩)
    else if ident = "nint" then
      match n.as_i64 with
      | some n64 =>
        if n64 < 0 then .ok
        else .err (.Target ⟨expected_memberkey, ident, actual_memberkey, value⟩)
      | none => .err (.Target ⟨expected_memberkey, ident, actual_memberkey, value⟩)
    else if ident = "int" then
      match n.as_i64 with
      | some _ => .ok
      | none => .err (.Target ⟨expected_memberkey, ident, actual_memberkey, value⟩)
    else if ident = "number" then .ok
    else if ident = "float16" then
      match n.as_f64 with
      | some _ => .ok
      | none => .err (.Target ⟨expected_memberkey, ident, actual_memberkey, value⟩)
    else if ident = "float32" then
      match n.as_f64 with
      | some _ => .ok
      | none => .err (.Target ⟨expected_memberkey, ident, actual_memberkey, value⟩)
    else .err (.Target ⟨expected_memberkey, ident, actual_memberkey, value⟩)
  | _ => .err (.Target ⟨expected_memberkey, ident, actual_memberkey, value⟩)

/-- `validate_numeric_value` from `json.rs`: matching a numeric literal
against a value.  Note the catch-all arm: every numeric-literal variant other
than `IntValue` and `FloatValue` (in particular `UintValue`) matches any
number. -/
def validate_numeric_value (t2 : Type2) (value : Value) : VRes :=
  match value with
  | .Number n =>
    match t2 with
    | .IntValue i =>
      match n.as_i64 with
      | some n64 =>
        if n64 = i then .ok
        else .err (.Target ⟨none, type2ToString t2, none, value⟩)
      | none => .err (.Target ⟨none, type2ToString t2, none, value⟩)
    | .FloatValue f =>
      match n.as_f64 with
      | some n64 =>
        if |n64 - f| < f64Epsilon then .ok
        else .err (.Target ⟨none, type2ToString t2, none, value⟩)
      | none => .err (.Target ⟨none, type2ToString t2, none, value⟩)
    | _ => .ok
  | _ => .err (.Target ⟨none, type2ToString t2, none, value⟩)

/-- Occurrence failure message for `+` on an empty sequence. -/
def msgOneOrMore (group : String) : String :=
  "Expecting one or more values of group " ++ group

/-- Occurrence failure message for the exact-count case (both bounds equal). -/
def msgExactly (li : Nat) (group : String) (len : Nat) : String :=
  "Expecting exactly " ++ (toString li ++ (" values of group " ++ (group ++
    (". Got " ++ (toString len ++ " values")))))

/-- Occurrence failure message for the range case (both bounds, distinct). -/
def msgBetween (li ui : Nat) (group : String) (len : Nat) : String :=
  "Expecting between " ++ (toString li ++ (" and " ++ (toString ui ++
    (" values of group " ++ (group ++ (". Got " ++ (toString len ++ " values")))))))

/-- Occurrence failure message for a lower bound only. -/
def msgAtLeast (li : Nat) (group : String) (len : Nat) : String :=
  "Expecting at least " ++ (toString li ++ (" values of group " ++ (group ++
    (". Got " ++ (toString len ++ " values")))))

/-- Occurrence failure message for an upper bound only. -/
def msgNoMore (ui : Nat) (group : String) (len : Nat) : String :=
  "Expecting no more than " ++ (toString ui ++ (" values of group " ++ (group ++
    (". Got " ++ (toString len ++ " values")))))

/-- `validate_array_occurrence` from `json.rs`: checks an occurrence
indicator against the length of a JSON array.  The Rust control flow (early
returns inside nested `if let`s) is flattened into the equivalent decision
tree. -/
def validate_array_occurrence (occur : Occur) (group : String)
    (values : List Value) : VRes :=
  match occur with
  | .ZeroOrMore | .Optional => .ok
  | .OneOrMore =>
    if values.isEmpty then .err (.Occurrence (msgOneOrMore group))
    else .ok
  | .Exact l u =>
    match l with
    | some li =>
      match u with
      | some ui =>
        if values.length < li ∨ values.length > ui then
          if li = ui then .err (.Occurrence (msgExactly li group values.length))
          else .err (.Occurrence (msgBetween li ui group values.length))
        else .ok
      | none =>
        if values.length < li then
          .err (.Occurrence (msgAtLeast li group values.length))
        else .ok
    | none =>
      match u with
      | some ui =>
        if values.length > ui then
          .err (.Occurrence (msgNoMore ui group values.length))
        else .ok
      | none => .ok

/-- The root-rule scan of `validate`: the first `Rule::Type` in declaration
order. -/
def firstTypeRule : List Rule → Option TypeRule
  | [] => none
  | .Type_ tr :: _ => some tr
  | .Group_ _ :: rest => firstTypeRule rest

/-- The rule-lookup loop of `validate_rule_for_ident`: the first rule (of
either kind) whose name matches. -/
def findRule : List Rule → Identifier → Option Rule
  | [], _ => none
  | .Type_ tr :: rest, ident =>
    if tr.name = ident then some (.Type_ tr) else findRule rest ident
  | .Group_ gr :: rest, ident =>
    if gr.name = ident then some (.Group_ gr) else findRule rest ident

/-- The `self.rules.iter().any(...)` test of `validate_group_choice`: is
there a `Rule::Type` with the given name? -/
def hasTypeRuleNamed (rules : List Rule) (name : Identifier) : Bool :=
  rules.any fun r =>
    match r with
    | .Type_ tr => tr.name = name
    | .Group_ _ => false

/-- The syntax-error message for unsupported member-key forms. -/
def memberKeySyntaxMsg : String :=
  "CDDL member key must be quoted string or bareword for validating JSON objects"

/-- The two occurrence pre-checks at the top of the array arm of the
`validate_group_choice` loop: a named reference or an inline group carrying
its own occurrence indicator is checked against the sequence's length
(`?`-propagated in the source). -/
def occPreCheck (ge : GroupEntry) (values : List Value) : VRes :=
  match ge with
  | .TypeGroupname (some o) name => validate_array_occurrence o name.name values
  | .InlineGroup (some o) g => validate_array_occurrence o (groupToString g) values
  | _ => .ok

/-- Intermediate outcome of the `TypeGroupname` all-elements block inside the
array arm of `validate_group_choice`: either an early return for the whole
group choice, or fall through to the at-least-one block carrying the errors
pushed into the choice-level accumulator. -/
inductive TGStep where
  | done (r : VRes)
  | cont (extra : List Err)

mutual

/-- `Validator::validate`: dispatch to the first `Rule::Type` in declaration
order; succeed vacuously when there is none. -/
def validate (fuel : Nat) (rules : List Rule) (value : Value) : VRes :=
  match fuel with
  | 0 => .fuelOut
  | f + 1 =>
    match firstTypeRule rules with
    | some tr => validate_type_rule f rules tr none none none value
    | none => .ok


/-- `validate_rule_for_ident`: look up the first rule with the given name and
dispatch on its kind; unresolved names are a syntax error. -/
def validate_rule_for_ident (fuel : Nat) (rules : List Rule) (ident : Identifier)
    (emk amk : Option String) (occur : Option Occur) (value : Value) : VRes :=
  match fuel with
  | 0 => .fuelOut
  | f + 1 =>
    match findRule rules ident with
    | some (.Type_ tr) => validate_type_rule f rules tr emk amk occur value
    | some (.Group_ gr) => validate_group_rule f rules gr occur value
    | none => .err (.SyntaxError ("No rule with name " ++ ident.name ++ " defined\n"))
termination_by (fuel, 0)


/-- `validate_type_rule`: validate against the rule's type expression. -/
def validate_type_rule (fuel : Nat) (rules : List Rule) (tr : TypeRule)
    (emk amk : Option String) (occur : Option Occur) (value : Value) : VRes :=
  validate_type fuel rules tr.value emk amk occur value
termination_by (fuel, sizeOf tr.value + sizeOf value + 1)


/-- `validate_group_rule`: validate against the rule's group entry. -/
def validate_group_rule (fuel : Nat) (rules : List Rule) (gr : GroupRule)
    (occur : Option Occur) (value : Value) : VRes :=
  validate_group_entry fuel rules gr.entry occur value
termination_by (fuel, sizeOf gr.entry + sizeOf value + 1)


/-- `validate_type`: try the type choices in order, short-circuiting on the
first success and aggregating every failure otherwise. -/
def validate_type (fuel : Nat) (rules : List Rule) (t : Ty)
    (emk amk : Option String) (occur : Option Occur) (value : Value) : VRes :=
  match t with
  | .mk alternatives => vtChoices fuel rules alternatives emk amk occur value []
termination_by (fuel, sizeOf t + sizeOf value)


/-- The `t.0.iter().any(find_type_choice)` loop of `validate_type`, with the
closure's mutable error accumulator made explicit. -/
def vtChoices (fuel : Nat) (rules : List Rule) (alts : List Type1)
    (emk amk : Option String) (occur : Option Occur) (value : Value)
    (errs : List Err) : VRes :=
  match alts with
  | [] => .err (.MultiError errs)
  | t1 :: rest =>
    match validate_type1 fuel rules t1 emk amk occur value with
    | .ok => .ok
    | .err e => vtChoices fuel rules rest emk amk occur value (errs ++ [e])
    | .panic s => .panic s
    | .fuelOut => .fuelOut
termination_by (fuel, sizeOf alts + sizeOf value)


/-- `validate_type1`: delegates to its `type2`. -/
def validate_type1 (fuel : Nat) (rules : List Rule) (t1 : Type1)
    (emk amk : Option String) (occur : Option Occur) (value : Value) : VRes :=
  match t1 with
  | .mk t2 => validate_type2 fuel rules t2 emk amk occur value
termination_by (fuel, sizeOf t1 + sizeOf value)


/-- `validate_type2`: leaf dispatch on the schema leaf variant and the
value's runtime kind. -/
def validate_type2 (fuel : Nat) (rules : List Rule) (t2 : Type2)
    (emk amk : Option String) (occur : Option Occur) (value : Value) : VRes :=
  match t2 with
  | .TextValue t =>
    match value with
    | .String s =>
      if t = s then .ok
      else .err (.Target ⟨emk, type2ToString t2, amk, value⟩)
    | _ => .err (.Target ⟨emk, type2ToString t2, amk, value⟩)
  | .IntValue _ | .UintValue _ | .FloatValue _ =>
    match value with
    | .Number _ => validate_numeric_value t2 value
    | _ => .err (.Target ⟨emk, type2ToString t2, amk, value⟩)
  | .Typename tn =>
    match value with
    | .Null => expect_null tn.name
    | .Bool _ => expect_bool tn.name value
    | .String _ =>
      if tn.name = "tstr" ∨ tn.name = "text" then .ok
      else if is_type_json_prelude tn.name then
        .err (.Target ⟨emk, tn.name, amk, value⟩)
      else validate_rule_for_ident fuel rules tn emk amk occur value
    | .Number _ => validate_numeric_data_type emk amk tn.name value
    | .Object _ => validate_rule_for_ident fuel rules tn emk amk occur value
    | .Array _ => validate_rule_for_ident fuel rules tn emk amk occur value
  | .Array g =>
    match value with
    | .Array vs => validate_group fuel rules g occur (.Array vs)
    | _ => .err (.Target ⟨emk, type2ToString t2, amk, value⟩)
  | .Map g =>
    match value with
    | .Object om => validate_group fuel rules g occur (.Object om)
    | _ => .err (.Target ⟨emk, type2ToString t2, amk, value⟩)
  | .Unsupported _ =>
    .err (.SyntaxError ("CDDL type " ++ type2ToString t2 ++
      " can't be used to validate JSON " ++ valueToString value))
termination_by (fuel, sizeOf t2 + sizeOf value)


/-- `validate_group`: try the group choices in order, short-circuiting on the
first success and aggregating every failure otherwise. -/
def validate_group (fuel : Nat) (rules : List Rule) (g : Group)
    (occur : Option Occur) (value : Value) : VRes :=
  match g with
  | .mk choices => vgChoices fuel rules choices occur value []
termination_by (fuel, sizeOf g + sizeOf value)


/-- The `g.0.iter().any(...)` loop of `validate_group`, with the closure's
mutable error accumulator made explicit. -/
def vgChoices (fuel : Nat) (rules : List Rule) (gcs : List GroupChoice)
    (occur : Option Occur) (value : Value) (errs : List Err) : VRes :=
  match gcs with
  | [] => .err (.MultiError errs)
  | gc :: rest =>
    match validate_group_choice fuel rules gc occur value with
    | .ok => .ok
    | .err e => vgChoices fuel rules rest occur value (errs ++ [e])
    | .panic s => .panic s
    | .fuelOut => .fuelOut
termination_by (fuel, sizeOf gcs + sizeOf value)


/-- `validate_group_choice`: walk the entries against the value. -/
def validate_group_choice (fuel : Nat) (rules : List Rule) (gc : GroupChoice)
    (occur : Option Occur) (value : Value) : VRes :=
  match gc with
  | .mk entries =>
    vgcEntries fuel rules entries (groupChoiceToString gc) occur value []
termination_by (fuel, sizeOf gc + sizeOf value)


/-- The `for ge in gc.0.iter()` loop of `validate_group_choice` with the
choice-level error accumulator made explicit.  For a sequence value each
entry runs: (1) the occurrence pre-check (`?`-propagated), (2) for a named
reference to a `Type` rule, the all-elements block that returns overall
success immediately when every element validates and otherwise records the
first failing element's error, (3) the at-least-one block.  For a mapping
value each entry is checked against the whole mapping, accumulating errors.
Any other value kind fails the choice outright. -/
def vgcEntries (fuel : Nat) (rules : List Rule) (entries : List GroupEntry)
    (gcStr : String) (occur : Option Occur) (value : Value)
    (errs : List Err) : VRes :=
  match entries with
  | [] =>
    match errs with
    | [] => .ok
    | _ => .err (.MultiError errs)
  | ge :: rest =>
    match value with
    | .Array values =>
      match occPreCheck ge values with
      | .err e => .err e
      | .panic s => .panic s
      | .fuelOut => .fuelOut
      | .ok =>
        match tgeStep fuel rules ge occur values with
        | .done r => r
        | .cont extra =>
          match vgeAny fuel rules ge occur values [] with
          | .panic s => .panic s
          | .fuelOut => .fuelOut
          | .res true _ =>
            vgcEntries fuel rules rest gcStr occur (.Array values) (errs ++ extra)
          | .res false es =>
            match es with
            | [] =>
              vgcEntries fuel rules rest gcStr occur (.Array values) (errs ++ extra)
            | _ => .err (.Target ⟨none, gcStr, none, value⟩)
    | .Object om =>
      match validate_group_entry fuel rules ge occur (.Object om) with
      | .ok => vgcEntries fuel rules rest gcStr occur (.Object om) errs
      | .err e => vgcEntries fuel rules rest gcStr occur (.Object om) (errs ++ [e])
      | .panic s => .panic s
      | .fuelOut => .fuelOut
    | _ => .err (.Target ⟨none, gcStr, none, value⟩)
termination_by (fuel, sizeOf entries + sizeOf value)


/-- The `TypeGroupname` block of the array arm of `validate_group_choice`:
when the referenced name is a `Type` rule and every element validates, the
whole choice returns success; a failing element's error falls through to the
choice-level accumulator. -/
def tgeStep (fuel : Nat) (rules : List Rule) (ge : GroupEntry)
    (occur : Option Occur) (values : List Value) : TGStep :=
  match ge with
  | .TypeGroupname o name =>
    if hasTypeRuleNamed rules name then
      match vgeAll fuel rules (.TypeGroupname o name) occur values with
      | .panic s => .done (.panic s)
      | .fuelOut => .done .fuelOut
      | .res true _ => .done .ok
      | .res false es => .cont es
    else .cont []
  | _ => .cont []
termination_by (fuel, sizeOf ge + sizeOf values + 1)

/-- The `values.iter().all(...)` iteration of the `TypeGroupname` block of
`validate_group_choice`: short-circuits at the first failing element whose
error it yields for the choice-level accumulator. -/
def vgeAll (fuel : Nat) (rules : List Rule) (ge : GroupEntry)
    (occur : Option Occur) (values : List Value) : LoopRes :=
  match values with
  | [] => .res true []
  | v :: vs =>
    match validate_group_entry fuel rules ge occur v with
    | .ok => vgeAll fuel rules ge occur vs
    | .err e => .res false [e]
    | .panic s => .panic s
    | .fuelOut => .fuelOut
termination_by (fuel, sizeOf ge + sizeOf values)


/-- The `values.iter().any(...)` iteration of the scoped-errors block of
`validate_group_choice`, with the scoped error accumulator made explicit. -/
def vgeAny (fuel : Nat) (rules : List Rule) (ge : GroupEntry)
    (occur : Option Occur) (values : List Value) (errs : List Err) : LoopRes :=
  match values with
  | [] => .res false errs
  | v :: vs =>
    match validate_group_entry fuel rules ge occur v with
    | .ok => .res true errs
    | .err e => vgeAny fuel rules ge occur vs (errs ++ [e])
    | .panic s => .panic s
    | .fuelOut => .fuelOut
termination_by (fuel, sizeOf ge + sizeOf values)


/-- `validate_group_entry`: member-key resolution.  The `ValueMemberKey`
entry with no member key reaches `unimplemented!()` in the source, modelled
as a panic. -/
def validate_group_entry (fuel : Nat) (rules : List Rule) (ge : GroupEntry)
    (occur : Option Occur) (value : Value) : VRes :=
  match fuel with
  | 0 => .fuelOut
  | f + 1 =>
    match ge with
    | .ValueMemberKey vOccur mkey entry_type =>
      match mkey with
      | some mk =>
        match mk with
        | .Type1 t1 _ =>
          match t1 with
          | .mk t2 =>
            match t2 with
            | .TextValue t =>
              match value with
              | .Object om =>
                -- The source duplicates the found-key call in both branches
                -- of the prelude test; the common case is factored out here
                -- (`if let Some(v) = om.get(t)` written with `Option.elim`).
                (objGet om t).elim
                  (if is_type_json_prelude (tyToString entry_type) = false then
                    validate_type f rules entry_type
                      (some (memberKeyToString mk)) none occur value
                  else
                    .err (.Target ⟨some (memberKeyToString mk),
                      groupEntryToString ge, none, value⟩))
                  (fun v => validate_type f rules entry_type
                    (some (memberKeyToString mk)) (some t) occur v)
              | _ =>
                validate_type f rules entry_type
                  (some (memberKeyToString mk)) none occur value
            | .Typename tn =>
              if tn.name = "tstr" ∨ tn.name = "text" then .ok
              else .err (.SyntaxError memberKeySyntaxMsg)
            | _ => .err (.SyntaxError memberKeySyntaxMsg)
        | .Bareword ident =>
          match value with
          | .Object om =>
            -- The source duplicates the found-key call in both branches of
            -- the prelude test; the common case is factored out here
            -- (`if let Some(v) = om.get(...)` written with `Option.elim`).
            (objGet om ident.name).elim
              (if is_type_json_prelude (tyToString entry_type) = false then
                validate_type f rules entry_type
                  (some (memberKeyToString mk)) none vOccur value
              else
                match occur with
                | some .Optional | some .OneOrMore => .ok
                | some _ =>
                  .err (.Target ⟨some (memberKeyToString mk),
                    memberKeyToString mk ++ " " ++ tyToString entry_type,
                    none, value⟩)
                | none =>
                  .err (.Target ⟨some (memberKeyToString mk),
                    memberKeyToString mk ++ " " ++ tyToString entry_type,
                    none, value⟩))
              (fun v => validate_type f rules entry_type
                (some (memberKeyToString mk)) (some ident.name) vOccur v)
          | _ =>
            validate_type f rules entry_type
              (some (memberKeyToString mk)) none vOccur value
        | .Value _ => .err (.SyntaxError memberKeySyntaxMsg)
      | none => .panic "not implemented"
    | .TypeGroupname tOccur name =>
      validate_rule_for_ident f rules name none none tOccur value
    | .InlineGroup igo g =>
      match igo with
      | some _ => validate_group f rules g igo value
      | none => validate_group f rules g occur value
termination_by (fuel, sizeOf ge + sizeOf value)


end


/-- `true` exactly on a propagated panic of the loop iterations. -/
def LoopRes.isPanic : LoopRes → Bool
  | .panic _ => true
  | _ => false

/-- `true` exactly on an early return that is a panic. -/
def TGStep.isDonePanic : TGStep → Bool
  | .done (.panic _) => true
  | _ => false

mutual

/-- No `ValueMemberKey` entry anywhere in the type lacks a member key (the
keyless entry is the one place `validate_group_entry` panics). -/
def tyNoKeyless : Ty → Bool
  | .mk alternatives => type1ListNoKeyless alternatives

/-- Conjunction of `type1NoKeyless` over a list. -/
def type1ListNoKeyless : List Type1 → Bool
  | [] => true
  | t1 :: rest => type1NoKeyless t1 && type1ListNoKeyless rest

/-- No keyless `ValueMemberKey` entry in the `Type1`. -/
def type1NoKeyless : Type1 → Bool
  | .mk t2 => type2NoKeyless t2

/-- No keyless `ValueMemberKey` entry in the `Type2`. -/
def type2NoKeyless : Type2 → Bool
  | .Array g => groupNoKeyless g
  | .Map g => groupNoKeyless g
  | _ => true

/-- No keyless `ValueMemberKey` entry in the group. -/
def groupNoKeyless : Group → Bool
  | .mk choices => groupChoiceListNoKeyless choices

/-- Conjunction of `groupChoiceNoKeyless` over a list. -/
def groupChoiceListNoKeyless : List GroupChoice → Bool
  | [] => true
  | gc :: rest => groupChoiceNoKeyless gc && groupChoiceListNoKeyless rest

/-- No keyless `ValueMemberKey` entry in the group choice. -/
def groupChoiceNoKeyless : GroupChoice → Bool
  | .mk entries => groupEntryListNoKeyless entries

/-- Conjunction of `groupEntryNoKeyless` over a list. -/
def groupEntryListNoKeyless : List GroupEntry → Bool
  | [] => true
  | ge :: rest => groupEntryNoKeyless ge && groupEntryListNoKeyless rest

/-- The entry carries a member key when it is a `ValueMemberKey`, and its
nested type/group is keyless-free. -/
def groupEntryNoKeyless : GroupEntry → Bool
  | .ValueMemberKey _ mkey entry_type => mkey.isSome && tyNoKeyless entry_type
  | .TypeGroupname _ _ => true
  | .InlineGroup _ g => groupNoKeyless g

end

/-- No keyless `ValueMemberKey` entry in the rule's body. -/
def ruleNoKeyless : Rule → Bool
  | .Type_ tr => tyNoKeyless tr.value
  | .Group_ gr => groupEntryNoKeyless gr.entry

/-- No keyless `ValueMemberKey` entry anywhere in the rule set. -/
def rulesNoKeyless (rules : List Rule) : Bool :=
  rules.all ruleNoKeyless

/-! ## Theorems -/

/-- C5: for every occurrence indicator and sequence: `*` and `?` always pass;
`+` passes iff the sequence is non-empty; a two-bound range passes iff the
length lies within the inclusive bounds, failing with the exact-count message
when the bounds coincide and with the range message otherwise; a single lower
(resp. upper) bound passes iff the length is at least (resp. at most) the
bound, each violation yielding its own failure message; the failure messages
are pairwise distinct; and bound (2,2) accepts length 2 while rejecting
lengths 1 and 3. -/
theorem validate_array_occurrence_spec :
    (∀ g vs, validate_array_occurrence .ZeroOrMore g vs = .ok ∧
      validate_array_occurrence .Optional g vs = .ok) ∧
    (∀ g vs, (validate_array_occurrence .OneOrMore g vs = .ok ↔ vs ≠ []) ∧
      (vs = [] → validate_array_occurrence .OneOrMore g vs =
        .err (.Occurrence (msgOneOrMore g)))) ∧
    (∀ li ui g vs,
      (validate_array_occurrence (.Exact (some li) (some ui)) g vs = .ok ↔
        li ≤ vs.length ∧ vs.length ≤ ui) ∧
      (¬(li ≤ vs.length ∧ vs.length ≤ ui) → li = ui →
        validate_array_occurrence (.Exact (some li) (some ui)) g vs =
          .err (.Occurrence (msgExactly li g vs.length))) ∧
      (¬(li ≤ vs.length ∧ vs.length ≤ ui) → li ≠ ui →
        validate_array_occurrence (.Exact (some li) (some ui)) g vs =
          .err (.Occurrence (msgBetween li ui g vs.length)))) ∧
    (∀ li g vs,
      (validate_array_occurrence (.Exact (some li) none) g vs = .ok ↔
        li ≤ vs.length) ∧
      (vs.length < li →
        validate_array_occurrence (.Exact (some li) none) g vs =
          .err (.Occurrence (msgAtLeast li g vs.length)))) ∧
    (∀ ui g vs,
      (validate_array_occurrence (.Exact none (some ui)) g vs = .ok ↔
        vs.length ≤ ui) ∧
      (ui < vs.length →
        validate_array_occurrence (.Exact none (some ui)) g vs =
          .err (.Occurrence (msgNoMore ui g vs.length)))) ∧
    (∀ li ui g len li2 ui2 g2 len2,
      msgExactly li g len ≠ msgBetween li2 ui2 g2 len2 ∧
      msgExactly li g len ≠ msgAtLeast li2 g2 len2 ∧
      msgExactly li g len ≠ msgNoMore ui2 g2 len2 ∧
      msgBetween li ui g len ≠ msgAtLeast li2 g2 len2 ∧
      msgBetween li ui g len ≠ msgNoMore ui2 g2 len2 ∧
      msgAtLeast li g len ≠ msgNoMore ui2 g2 len2) ∧
    (validate_array_occurrence (.Exact (some 2) (some 2)) "g" [.Null, .Null] =
      .ok ∧
     validate_array_occurrence (.Exact (some 2) (some 2)) "g" [.Null] =
      .err (.Occurrence (msgExactly 2 "g" 1)) ∧
     validate_array_occurrence (.Exact (some 2) (some 2)) "g"
        [.Null, .Null, .Null] = .err (.Occurrence (msgExactly 2 "g" 3))) := by
  refine ⟨fun g vs => ⟨rfl, rfl⟩, fun g vs => ⟨?_, ?_⟩,
    fun li ui g vs => ⟨?_, ?_, ?_⟩,
    fun li g vs => ⟨?_, ?_⟩, fun ui g vs => ⟨?_, ?_⟩,
    fun li ui g len li2 ui2 g2 len2 => ⟨?_, ?_, ?_, ?_, ?_, ?_⟩, rfl, rfl, rfl⟩
  · simp [validate_array_occurrence, List.isEmpty_iff]
  · intro h
    simp [validate_array_occurrence, h]
  · simp only [validate_array_occurrence]
    constructor
    · intro h
      by_contra hc
      rw [if_pos (by omega)] at h
      split at h <;> exact absurd h (by simp)
    · intro h
      rw [if_neg (by omega)]
  · intro h he
    subst he
    rw [validate_array_occurrence]
    rw [if_pos (show vs.length < li ∨ vs.length > li by omega), if_pos rfl]
  · intro h hne
    rw [validate_array_occurrence]
    rw [if_pos (show vs.length < li ∨ vs.length > ui by omega), if_neg hne]
  · simp only [validate_array_occurrence]
    constructor
    · intro h
      by_contra hc
      rw [if_pos (by omega)] at h
      exact absurd h (by simp)
    · intro h
      rw [if_neg (by omega)]
  · intro h
    rw [validate_array_occurrence, if_pos h]
  · simp only [validate_array_occurrence]
    constructor
    · intro h
      by_contra hc
      rw [if_pos (by omega)] at h
      exact absurd h (by simp)
    · intro h
      rw [if_neg (by omega)]
  · intro h
    rw [validate_array_occurrence, if_pos h]
  all_goals
    intro h
    have h2 := congrArg (fun s => s.data[10]?) h
    simp [msgExactly, msgBetween, msgAtLeast, msgNoMore, String.data_append,
      List.getElem?_append] at h2

/-- Witness for C5 at concrete inputs: `+` accepts a one-element sequence and
the (1,3) range accepts length 2. -/
theorem validate_array_occurrence_spec_witness :
    validate_array_occurrence .OneOrMore "g" [.Null] = .ok ∧
    validate_array_occurrence (.Exact (some 1) (some 3)) "g" [.Null, .Null] =
      .ok :=
  ⟨(validate_array_occurrence_spec.2.1 "g" [.Null]).1.mpr (by simp),
   (validate_array_occurrence_spec.2.2.1 1 3 "g" [.Null, .Null]).1.mpr
     (by constructor <;> decide)⟩

/-- C4: numeric-subtype matching of a declared identifier against a number:
`uint` succeeds exactly on the unsigned-64 representations, `nint` exactly on
the (strictly negative) signed-64 representations, `int` exactly on numbers
representable as signed 64-bit integers of either sign, while `number`,
`float16` and `float32` always succeed (every default-feature number is
`f64`-representable), and every other identifier is an unconditional
mismatch. -/
theorem validate_numeric_data_type_spec (emk amk : Option String) (n : JNumber) :
    (validate_numeric_data_type emk amk "uint" (.Number n) = .ok ↔
      ∃ m h, n = JNumber.posInt m h) ∧
    (validate_numeric_data_type emk amk "nint" (.Number n) = .ok ↔
      ∃ z hl hu, n = JNumber.negInt z hl hu) ∧
    (validate_numeric_data_type emk amk "int" (.Number n) = .ok ↔
      ((∃ m h, n = JNumber.posInt m h ∧ m ≤ 2 ^ 63 - 1) ∨
        ∃ z hl hu, n = JNumber.negInt z hl hu)) ∧
    (validate_numeric_data_type emk amk "number" (.Number n) = .ok ∧
     validate_numeric_data_type emk amk "float16" (.Number n) = .ok ∧
     validate_numeric_data_type emk amk "float32" (.Number n) = .ok ∧
     (JNumber.as_f64 n).isSome = true) ∧
    (∀ ident, ident ≠ "uint" → ident ≠ "nint" → ident ≠ "int" →
      ident ≠ "number" → ident ≠ "float16" → ident ≠ "float32" →
      validate_numeric_data_type emk amk ident (.Number n) =
        .err (.Target ⟨emk, ident, amk, .Number n⟩)) := by
  refine ⟨?_, ?_, ?_, ⟨?_, ?_, ?_, ?_⟩, ?_⟩
  · cases n with
    | posInt m h => exact iff_of_true rfl ⟨m, h, rfl⟩
    | negInt z hl hu => exact iff_of_false (by exact fun hc => VRes.noConfusion hc) (by simp)
    | float q => exact iff_of_false (by exact fun hc => VRes.noConfusion hc) (by simp)
  · cases n with
    | posInt m h =>
      refine iff_of_false ?_ (by simp)
      show (match (if m ≤ 2 ^ 63 - 1 then some (m : Int) else none : Option Int) with
            | some n64 => if n64 < 0 then VRes.ok else
                .err (.Target ⟨emk, "nint", amk, .Number (.posInt m h)⟩)
            | none => .err (.Target ⟨emk, "nint", amk, .Number (.posInt m h)⟩)) ≠ VRes.ok
      by_cases hm : m ≤ 2 ^ 63 - 1
      · rw [if_pos hm]
        simp only []
        rw [if_neg (by omega)]
        exact fun hc => VRes.noConfusion hc
      · rw [if_neg hm]
        exact fun hc => VRes.noConfusion hc
    | negInt z hl hu =>
      refine iff_of_true ?_ ⟨z, hl, hu, rfl⟩
      show (if z < 0 then VRes.ok else
        .err (.Target ⟨emk, "nint", amk, .Number (.negInt z hl hu)⟩)) = VRes.ok
      rw [if_pos hu]
    | float q => exact iff_of_false (by exact fun hc => VRes.noConfusion hc) (by simp)
  · cases n with
    | posInt m h =>
      by_cases hm : m ≤ 2 ^ 63 - 1
      · refine iff_of_true ?_ (Or.inl ⟨m, h, rfl, hm⟩)
        show (match (if m ≤ 2 ^ 63 - 1 then some (m : Int) else none : Option Int) with
              | some _ => VRes.ok
              | none => .err (.Target ⟨emk, "int", amk, .Number (.posInt m h)⟩)) = VRes.ok
        rw [if_pos hm]
      · refine iff_of_false ?_ (by simp; omega)
        show (match (if m ≤ 2 ^ 63 - 1 then some (m : Int) else none : Option Int) with
              | some _ => VRes.ok
              | none => .err (.Target ⟨emk, "int", amk, .Number (.posInt m h)⟩)) ≠ VRes.ok
        rw [if_neg hm]
        exact fun hc => VRes.noConfusion hc
    | negInt z hl hu => exact iff_of_true rfl (Or.inr ⟨z, hl, hu, rfl⟩)
    | float q =>
      exact iff_of_false (by exact fun hc => VRes.noConfusion hc) (by simp)
  · rfl
  · cases n <;> rfl
  · cases n <;> rfl
  · cases n <;> rfl
  · intro ident h1 h2 h3 h4 h5 h6
    show (if ident = "uint" then _ else if ident = "nint" then _ else
          if ident = "int" then _ else if ident = "number" then _ else
          if ident = "float16" then _ else if ident = "float32" then _ else
          VRes.err (.Target ⟨emk, ident, amk, .Number n⟩)) = _
    rw [if_neg h1, if_neg h2, if_neg h3, if_neg h4, if_neg h5, if_neg h6]

/-- Witness for C4: the number 7 validates against `uint` and the identifier
`tstr` is a mismatch against a number. -/
theorem validate_numeric_data_type_spec_witness :
    validate_numeric_data_type none none "uint"
      (.Number (.posInt 7 (by norm_num))) = .ok ∧
    validate_numeric_data_type none none "tstr"
      (.Number (.posInt 7 (by norm_num))) =
      .err (.Target ⟨none, "tstr", none, .Number (.posInt 7 (by norm_num))⟩) :=
  ⟨((validate_numeric_data_type_spec none none (.posInt 7 (by norm_num))).1).mpr
     ⟨7, by norm_num, rfl⟩,
   (validate_numeric_data_type_spec none none (.posInt 7 (by norm_num))).2.2.2.2
     "tstr" (by decide) (by decide) (by decide) (by decide) (by decide)
     (by decide)⟩

/-- C7 counterexample: the claim asserts that an unsigned integer literal
matches a number only when the value equals the literal, but the source's
`validate_numeric_value` routes `UintValue` into the `_ => Ok(())` catch-all:
the literal `3` matches the number `4`. -/
theorem validate_numeric_value_uint_counterexample :
    validate_numeric_value (.UintValue 3) (.Number (.posInt 4 (by norm_num))) =
      .ok ∧ (4 : Nat) ≠ 3 :=
  ⟨rfl, by decide⟩

/-- C7 (amended): an `IntValue` literal matches a number iff the number is
signed-64 representable and equals the literal; a `FloatValue` literal
matches iff the `f64` reading differs from the literal by less than machine
epsilon; a `UintValue` literal matches any number unconditionally (the
catch-all arm); and any numeric literal against a non-number value is a
mismatch. -/
theorem validate_numeric_value_spec :
    (∀ (i : Int) (n : JNumber),
      validate_numeric_value (.IntValue i) (.Number n) = .ok ↔
        n.as_i64 = some i) ∧
    (∀ (q : ℚ) (n : JNumber),
      validate_numeric_value (.FloatValue q) (.Number n) = .ok ↔
        ∃ x, n.as_f64 = some x ∧ |x - q| < f64Epsilon) ∧
    (∀ (u : Nat) (n : JNumber),
      validate_numeric_value (.UintValue u) (.Number n) = .ok) ∧
    (∀ t2 v, (∀ n, v ≠ .Number n) →
      validate_numeric_value t2 v =
        .err (.Target ⟨none, type2ToString t2, none, v⟩)) := by
  refine ⟨?_, ?_, ?_, ?_⟩
  · intro i n
    simp only [validate_numeric_value]
    cases hn : n.as_i64 with
    | none => simp
    | some n64 =>
      split <;> rename_i hcond <;> simp_all
  · intro q n
    simp only [validate_numeric_value]
    cases hn : n.as_f64 with
    | none => simp
    | some x =>
      split <;> rename_i hcond <;> simp_all
  · intro u n
    simp [validate_numeric_value]
  · intro t2 v hv
    cases v <;> first
      | rfl
      | exact absurd rfl (hv _)

/-- Witness for C7 (amended): the integer literal 3 matches the number 3. -/
theorem validate_numeric_value_spec_witness :
    validate_numeric_value (.IntValue 3) (.Number (.posInt 3 (by norm_num))) =
      .ok :=
  (validate_numeric_value_spec.1 3 (.posInt 3 (by norm_num))).mpr
    (by simp [JNumber.as_i64])

/-- `firstTypeRule` skips any prefix containing no `Rule::Type`. -/
theorem firstTypeRule_append_of_no_type (pre : List Rule) (rest : List Rule)
    (h : ∀ r ∈ pre, ∀ tr, r ≠ .Type_ tr) :
    firstTypeRule (pre ++ rest) = firstTypeRule rest := by
  induction pre with
  | nil => rfl
  | cons r pre ih =>
    cases r with
    | Type_ tr => exact absurd rfl (h _ (List.mem_cons_self _ _) tr)
    | Group_ gr =>
      rw [List.cons_append, firstTypeRule]
      exact ih fun r hr => h r (List.mem_cons_of_mem _ hr)

/-- C6: `validate` dispatches to the first `Rule::Type` in declaration order,
ignoring any preceding `Group` rules, and succeeds vacuously on every value
when the rule set contains no `Type` rule at all. -/
theorem validate_root_dispatch (fuel : Nat) (rules : List Rule) (value : Value) :
    ((∀ r ∈ rules, ∀ tr, r ≠ .Type_ tr) → validate (fuel + 1) rules value = .ok) ∧
    (∀ pre tr post, rules = pre ++ .Type_ tr :: post →
      (∀ r ∈ pre, ∀ tr2, r ≠ .Type_ tr2) →
      validate (fuel + 1) rules value =
        validate_type_rule fuel rules tr none none none value) := by
  constructor
  · intro h
    have hnone : firstTypeRule rules = none := by
      have := firstTypeRule_append_of_no_type rules [] h
      simpa using this
    simp [validate, hnone]
  · intro pre tr post hrules hpre
    have hsome : firstTypeRule rules = some tr := by
      rw [hrules, firstTypeRule_append_of_no_type pre _ hpre, firstTypeRule]
    simp [validate, hsome]

/-- Witness for C6: a rule set whose first `Type` rule follows a `Group` rule
dispatches to that `Type` rule, and an all-`Group` rule set validates
anything. -/
theorem validate_root_dispatch_witness :
    validate 3 [.Group_ ⟨⟨"g"⟩, .TypeGroupname none ⟨"x"⟩⟩,
        .Type_ ⟨⟨"a"⟩, .mk [.mk (.TextValue "x")]⟩] (.String "x") =
      validate_type_rule 2 [.Group_ ⟨⟨"g"⟩, .TypeGroupname none ⟨"x"⟩⟩,
        .Type_ ⟨⟨"a"⟩, .mk [.mk (.TextValue "x")]⟩] ⟨⟨"a"⟩, .mk [.mk (.TextValue "x")]⟩
        none none none (.String "x") ∧
    validate 3 [.Group_ ⟨⟨"g"⟩, .TypeGroupname none ⟨"x"⟩⟩] .Null = .ok :=
  ⟨(validate_root_dispatch 2 _ _).2 [.Group_ ⟨⟨"g"⟩, .TypeGroupname none ⟨"x"⟩⟩]
     ⟨⟨"a"⟩, .mk [.mk (.TextValue "x")]⟩ [] rfl
     (by intro r hr tr2; simp at hr; subst hr; exact fun hc => Rule.noConfusion hc),
   (validate_root_dispatch 2 _ _).1
     (by intro r hr tr2; simp at hr; subst hr; exact fun hc => Rule.noConfusion hc)⟩

/-- Evaluation of the bareword-key absence branch: with a prelude-rendered
entry type and the key absent, the result is decided by the inherited
`occur` argument alone. -/
theorem vge_bareword_absent (fuel : Nat) (rules : List Rule)
    (vOccur : Option Occur) (id : Identifier) (T : Ty)
    (om : List (String × Value)) (occur : Option Occur)
    (hp : is_type_json_prelude (tyToString T) = true)
    (habs : objGet om id.name = none) :
    validate_group_entry (fuel + 1) rules
      (.ValueMemberKey vOccur (some (.Bareword id)) T) occur (.Object om)
      = match occur with
        | some .Optional => .ok
        | some .OneOrMore => .ok
        | _ => .err (.Target ⟨some (memberKeyToString (.Bareword id)),
            memberKeyToString (.Bareword id) ++ " " ++ tyToString T, none,
            .Object om⟩) := by
  cases occur with
  | none => rw [validate_group_entry.eq_def]; simp [habs, hp]
  | some o => cases o <;> (rw [validate_group_entry.eq_def]; simp [habs, hp])

/-- Evaluation of the bareword-key presence branch: the found member value is
validated against the entry type with the entry's own occurrence indicator
passed downward. -/
theorem vge_bareword_found (fuel : Nat) (rules : List Rule)
    (vOccur : Option Occur) (id : Identifier) (T : Ty)
    (om : List (String × Value)) (occur : Option Occur) (v : Value)
    (hfound : objGet om id.name = some v) :
    validate_group_entry (fuel + 1) rules
      (.ValueMemberKey vOccur (some (.Bareword id)) T) occur (.Object om)
      = validate_type fuel rules T (some (memberKeyToString (.Bareword id)))
          (some id.name) vOccur v := by
  rw [validate_group_entry.eq_def]; simp [hfound]

/-- C3: for a bareword-keyed entry whose entry type renders as a built-in
primitive name and whose key is absent from the mapping, validation succeeds
exactly when the governing occurrence indicator is `Optional` or `OneOrMore`;
any other indicator, or none at all, yields a `ValueMismatch` whose expected
member key names the missing bareword key. -/
theorem validate_group_entry_bareword_absent_spec (fuel : Nat)
    (rules : List Rule) (vOccur : Option Occur) (id : Identifier) (T : Ty)
    (om : List (String × Value)) (occur : Option Occur)
    (hp : is_type_json_prelude (tyToString T) = true)
    (habs : objGet om id.name = none) :
    (validate_group_entry (fuel + 1) rules
        (.ValueMemberKey vOccur (some (.Bareword id)) T) occur (.Object om) =
        .ok ↔ occur = some .Optional ∨ occur = some .OneOrMore) ∧
    (occur ≠ some .Optional → occur ≠ some .OneOrMore →
      validate_group_entry (fuel + 1) rules
        (.ValueMemberKey vOccur (some (.Bareword id)) T) occur (.Object om) =
        .err (.Target ⟨some (memberKeyToString (.Bareword id)),
          memberKeyToString (.Bareword id) ++ " " ++ tyToString T, none,
          .Object om⟩)) ∧
    memberKeyToString (.Bareword id) = id.name ++ ":" := by
  rw [vge_bareword_absent fuel rules vOccur id T om occur hp habs]
  refine ⟨?_, ?_, rfl⟩
  · cases occur with
    | none => simp
    | some o => cases o <;> simp
  · intro h1 h2
    cases occur with
    | none => rfl
    | some o => cases o <;> simp_all

/-- Witness for C3: key `k` of entry type `uint` absent from the empty
object — tolerated under `?`, a mismatch naming the key when no indicator
governs. -/
theorem validate_group_entry_bareword_absent_spec_witness :
    validate_group_entry 5 [] (.ValueMemberKey none (some (.Bareword ⟨"k"⟩))
        (.mk [.mk (.Typename ⟨"uint"⟩)])) (some .Optional) (.Object []) =
      .ok ∧
    validate_group_entry 5 [] (.ValueMemberKey none (some (.Bareword ⟨"k"⟩))
        (.mk [.mk (.Typename ⟨"uint"⟩)])) none (.Object []) =
      .err (.Target ⟨some (memberKeyToString (.Bareword ⟨"k"⟩)),
        memberKeyToString (.Bareword ⟨"k"⟩) ++ " " ++
          tyToString (.mk [.mk (.Typename ⟨"uint"⟩)]), none, .Object []⟩) :=
  ⟨(validate_group_entry_bareword_absent_spec 4 [] none ⟨"k"⟩
      (.mk [.mk (.Typename ⟨"uint"⟩)]) [] (some .Optional) rfl rfl).1.mpr
      (Or.inl rfl),
   (validate_group_entry_bareword_absent_spec 4 [] none ⟨"k"⟩
      (.mk [.mk (.Typename ⟨"uint"⟩)]) [] none rfl rfl).2.1
      (by simp) (by simp)⟩

/-- C10: in the bareword-key absence branch (prelude entry type, key
missing), the occurrence indicator consulted is the inherited `occur`
argument — the entry's own `vmke.occur` does not affect the outcome — whereas
when the key is present it is the entry's own indicator that is passed
downward to the entry-type validation. -/
theorem validate_group_entry_bareword_occur_source (fuel : Nat)
    (rules : List Rule) (id : Identifier) (T : Ty)
    (om : List (String × Value)) (occur : Option Occur) :
    (∀ vo1 vo2, is_type_json_prelude (tyToString T) = true →
      objGet om id.name = none →
      validate_group_entry (fuel + 1) rules
        (.ValueMemberKey vo1 (some (.Bareword id)) T) occur (.Object om) =
      validate_group_entry (fuel + 1) rules
        (.ValueMemberKey vo2 (some (.Bareword id)) T) occur (.Object om)) ∧
    (∀ vo, is_type_json_prelude (tyToString T) = true →
      objGet om id.name = none →
      (validate_group_entry (fuel + 1) rules
        (.ValueMemberKey vo (some (.Bareword id)) T) occur (.Object om) = .ok ↔
        occur = some .Optional ∨ occur = some .OneOrMore)) ∧
    (∀ vo v, objGet om id.name = some v →
      validate_group_entry (fuel + 1) rules
        (.ValueMemberKey vo (some (.Bareword id)) T) occur (.Object om) =
      validate_type fuel rules T (some (memberKeyToString (.Bareword id)))
        (some id.name) vo v) := by
  refine ⟨?_, ?_, ?_⟩
  · intro vo1 vo2 hp habs
    rw [vge_bareword_absent fuel rules vo1 id T om occur hp habs,
      vge_bareword_absent fuel rules vo2 id T om occur hp habs]
  · intro vo hp habs
    exact (validate_group_entry_bareword_absent_spec fuel rules vo id T om
      occur hp habs).1
  · intro vo v hfound
    exact vge_bareword_found fuel rules vo id T om occur v hfound

/-- Witness for C10: with key `k` present, the entry's own `*` indicator is
the one passed to the entry-type validation. -/
theorem validate_group_entry_bareword_occur_source_witness :
    validate_group_entry 5 [] (.ValueMemberKey (some .ZeroOrMore)
        (some (.Bareword ⟨"k"⟩)) (.mk [.mk (.Typename ⟨"uint"⟩)])) none
        (.Object [("k", .Null)]) =
      validate_type 4 [] (.mk [.mk (.Typename ⟨"uint"⟩)])
        (some (memberKeyToString (.Bareword ⟨"k"⟩))) (some "k")
        (some .ZeroOrMore) .Null :=
  (validate_group_entry_bareword_occur_source 4 [] ⟨"k"⟩
    (.mk [.mk (.Typename ⟨"uint"⟩)]) [("k", .Null)] none).2.2
    (some .ZeroOrMore) .Null rfl

/-- The entry loop of `validate_group_choice` against the empty array: when no
entry carries its own sequence occurrence indicator, every entry either
returns early with success or continues without recording an error. -/
theorem vgcEntries_empty_array (fuel : Nat) (rules : List Rule)
    (entries : List GroupEntry) (gcStr : String) (occur : Option Occur)
    (h : ∀ ge ∈ entries, (∀ o n, ge ≠ .TypeGroupname (some o) n) ∧
      (∀ o g, ge ≠ .InlineGroup (some o) g)) :
    vgcEntries fuel rules entries gcStr occur (.Array []) [] = .ok := by
  induction entries with
  | nil => rw [vgcEntries.eq_def]
  | cons ge rest ih =>
    have hrest := fun ge hge => h ge (List.mem_cons_of_mem _ hge)
    have hge := h ge (List.mem_cons_self _ _)
    have hocc : occPreCheck ge [] = .ok := by
      cases ge with
      | ValueMemberKey vo mk T => rfl
      | TypeGroupname o name =>
        cases o with
        | some oc => exact absurd rfl (hge.1 oc name)
        | none => rfl
      | InlineGroup o g =>
        cases o with
        | some oc => exact absurd rfl (hge.2 oc g)
        | none => rfl
    cases ge with
    | ValueMemberKey vo mk T =>
      rw [vgcEntries.eq_def]
      simp only [hocc, tgeStep, vgeAny, List.nil_append]
      exact ih hrest
    | TypeGroupname o name =>
      rw [vgcEntries.eq_def]
      simp only [hocc, tgeStep, vgeAll, vgeAny, List.nil_append]
      by_cases hr : hasTypeRuleNamed rules name
      · simp [hr]
      · simp only [hr, Bool.false_eq_true, if_false]
        exact ih hrest
    | InlineGroup o g =>
      rw [vgcEntries.eq_def]
      simp only [hocc, tgeStep, vgeAny, List.nil_append]
      exact ih hrest

/-- C9: a group choice whose entries all lack a sequence occurrence indicator
of their own (no `TypeGroupname` occurrence, no inline-group occurrence;
keyed entries qualify unconditionally) succeeds against the empty JSON
array — no per-element check can fail and no error is recorded. -/
theorem validate_group_choice_empty_array (fuel : Nat) (rules : List Rule)
    (entries : List GroupEntry) (occur : Option Occur)
    (h : ∀ ge ∈ entries, (∀ o n, ge ≠ .TypeGroupname (some o) n) ∧
      (∀ o g, ge ≠ .InlineGroup (some o) g)) :
    validate_group_choice fuel rules (.mk entries) occur (.Array []) = .ok := by
  rw [validate_group_choice.eq_def]
  exact vgcEntries_empty_array fuel rules entries _ occur h

/-- Witness for C9: a choice of a bare named reference, a keyed entry and an
occurrence-free inline group accepts the empty array. -/
theorem validate_group_choice_empty_array_witness :
    validate_group_choice 3 [] (.mk [.TypeGroupname none ⟨"t"⟩,
      .ValueMemberKey none (some (.Bareword ⟨"k"⟩)) (.mk [.mk (.Typename ⟨"uint"⟩)]),
      .InlineGroup none (.mk [])]) none (.Array []) = .ok :=
  validate_group_choice_empty_array 3 [] _ none (by
    intro ge hge
    simp only [List.mem_cons, List.not_mem_nil, or_false] at hge
    rcases hge with rfl | rfl | rfl <;>
      exact ⟨fun o n hc => by simp at hc, fun o g hc => by simp at hc⟩)

/-- `isErr` characterization. -/
theorem VRes.isErr_iff (r : VRes) : r.isErr = true ↔ ∃ e, r = .err e := by
  cases r <;> simp [VRes.isErr]

/-- The type-choice loop succeeds as soon as one alternative validates, no
matter what the accumulated errors are and no matter what follows. -/
theorem vtChoices_ok_of_first (fuel : Nat) (rules : List Rule)
    (emk amk : Option String) (occur : Option Occur) (value : Value)
    (pre : List Type1) (t1 : Type1) (post : List Type1) :
    ∀ errs, (∀ t ∈ pre, (validate_type1 fuel rules t emk amk occur value).isErr = true) →
    validate_type1 fuel rules t1 emk amk occur value = .ok →
    vtChoices fuel rules (pre ++ t1 :: post) emk amk occur value errs = .ok := by
  induction pre with
  | nil =>
    intro errs _ hok
    rw [List.nil_append]
    simp only [vtChoices, hok]
  | cons t pre ih =>
    intro errs hpre hok
    obtain ⟨e, he⟩ := (VRes.isErr_iff _).1 (hpre t (List.mem_cons_self _ _))
    rw [List.cons_append]
    simp only [vtChoices, he]
    exact ih _ (fun t ht => hpre t (List.mem_cons_of_mem _ ht)) hok

/-- The type-choice loop aggregates one error per alternative, in attempt
order, when every alternative fails. -/
theorem vtChoices_all_err (fuel : Nat) (rules : List Rule)
    (emk amk : Option String) (occur : Option Occur) (value : Value) :
    ∀ alts es errs, List.Forall₂ (fun t1 e =>
        validate_type1 fuel rules t1 emk amk occur value = .err e) alts es →
    vtChoices fuel rules alts emk amk occur value errs =
      .err (.MultiError (errs ++ es)) := by
  intro alts es
  induction alts generalizing es with
  | nil =>
    intro errs hf
    cases hf
    simp only [vtChoices, List.append_nil]
  | cons t rest ih =>
    intro errs hf
    cases hf with
    | cons he hrest =>
      simp only [vtChoices, he]
      rw [ih _ _ hrest, List.append_assoc, List.singleton_append]

/-- Every list of all-failing alternatives has a matching error list. -/
theorem exists_forall₂_err (fuel : Nat) (rules : List Rule)
    (emk amk : Option String) (occur : Option Occur) (value : Value)
    (alts : List Type1)
    (h : ∀ t1 ∈ alts, (validate_type1 fuel rules t1 emk amk occur value).isErr = true) :
    ∃ es, List.Forall₂ (fun t1 e =>
      validate_type1 fuel rules t1 emk amk occur value = .err e) alts es := by
  induction alts with
  | nil => exact ⟨[], List.Forall₂.nil⟩
  | cons t rest ih =>
    obtain ⟨e, he⟩ := (VRes.isErr_iff _).1 (h t (List.mem_cons_self _ _))
    obtain ⟨es, hes⟩ := ih fun t ht => h t (List.mem_cons_of_mem _ ht)
    exact ⟨e :: es, List.Forall₂.cons he hes⟩

/-- A first-success decomposition of a list in which some element satisfies
`P` and every element satisfies `P` or `Q`. -/
theorem exists_first_split {α : Type} (P Q : α → Prop) :
    ∀ l : List α, (∃ x ∈ l, P x) → (∀ x ∈ l, P x ∨ Q x) →
    ∃ pre x post, l = pre ++ x :: post ∧ (∀ y ∈ pre, Q y) ∧ P x := by
  intro l
  induction l with
  | nil => rintro ⟨x, hx, _⟩; exact absurd hx (List.not_mem_nil x)
  | cons a rest ih =>
    intro hex hall
    rcases hall a (List.mem_cons_self _ _) with hPa | hQa
    · exact ⟨[], a, rest, rfl, by simp, hPa⟩
    · rcases hex with ⟨x, hx, hPx⟩
      rcases List.mem_cons.1 hx with rfl | hxr
      · exact ⟨[], x, rest, rfl, by simp, hPx⟩
      · obtain ⟨pre, y, post, heq, hpre, hPy⟩ :=
          ih ⟨x, hxr, hPx⟩ (fun x hx => hall x (List.mem_cons_of_mem _ hx))
        exact ⟨a :: pre, y, post, by rw [heq, List.cons_append],
          fun y hy => (List.mem_cons.1 hy).elim (fun h => h ▸ hQa) (hpre y), hPy⟩

/-- C1: `validate_type` tries the alternatives in declared order and returns
success as soon as one validates — later alternatives are irrelevant and no
earlier failure appears in the successful result; when every alternative
fails it returns a `MultiError` carrying exactly one failure per alternative
in attempt order; and, whenever every alternative either validates or fails,
success holds iff some alternative validates and any error result is exactly
that aggregate. -/
theorem validate_type_choice_spec (fuel : Nat) (rules : List Rule)
    (alts : List Type1) (emk amk : Option String) (occur : Option Occur)
    (value : Value) :
    (∀ pre t1 post, alts = pre ++ t1 :: post →
      (∀ t ∈ pre, (validate_type1 fuel rules t emk amk occur value).isErr = true) →
      validate_type1 fuel rules t1 emk amk occur value = .ok →
      validate_type fuel rules (.mk alts) emk amk occur value = .ok) ∧
    (∀ es, List.Forall₂ (fun t1 e =>
        validate_type1 fuel rules t1 emk amk occur value = .err e) alts es →
      validate_type fuel rules (.mk alts) emk amk occur value =
        .err (.MultiError es)) ∧
    ((∀ t1 ∈ alts, validate_type1 fuel rules t1 emk amk occur value = .ok ∨
        (validate_type1 fuel rules t1 emk amk occur value).isErr = true) →
      ((validate_type fuel rules (.mk alts) emk amk occur value = .ok ↔
        ∃ t1 ∈ alts, validate_type1 fuel rules t1 emk amk occur value = .ok) ∧
      (∀ E, validate_type fuel rules (.mk alts) emk amk occur value = .err E →
        ∃ es, List.Forall₂ (fun t1 e =>
          validate_type1 fuel rules t1 emk amk occur value = .err e) alts es ∧
          E = .MultiError es))) := by
  have hvt : validate_type fuel rules (.mk alts) emk amk occur value =
      vtChoices fuel rules alts emk amk occur value [] := by
    rw [validate_type.eq_def]
  refine ⟨?_, ?_, ?_⟩
  · intro pre t1 post heq hpre hok
    rw [hvt, heq]
    exact vtChoices_ok_of_first fuel rules emk amk occur value pre t1 post []
      hpre hok
  · intro es hf
    rw [hvt]
    have := vtChoices_all_err fuel rules emk amk occur value alts es [] hf
    rwa [List.nil_append] at this
  · intro hsettled
    constructor
    · constructor
      · intro hok
        by_contra hnone
        push_neg at hnone
        have hall : ∀ t1 ∈ alts,
            (validate_type1 fuel rules t1 emk amk occur value).isErr = true := by
          intro t1 ht
          rcases hsettled t1 ht with h | h
          · exact absurd h (hnone t1 ht)
          · exact h
        obtain ⟨es, hes⟩ :=
          exists_forall₂_err fuel rules emk amk occur value alts hall
        have := vtChoices_all_err fuel rules emk amk occur value alts es [] hes
        rw [hvt, this] at hok
        exact VRes.noConfusion hok
      · rintro ⟨t1, ht1, hok⟩
        obtain ⟨pre, x, post, heq, hpre, hPx⟩ :=
          exists_first_split
            (fun t => validate_type1 fuel rules t emk amk occur value = .ok)
            (fun t => (validate_type1 fuel rules t emk amk occur value).isErr = true)
            alts ⟨t1, ht1, hok⟩ hsettled
        rw [hvt, heq]
        exact vtChoices_ok_of_first fuel rules emk amk occur value pre x post []
          hpre hPx
    · intro E hE
      have hall : ∀ t1 ∈ alts,
          (validate_type1 fuel rules t1 emk amk occur value).isErr = true := by
        intro t1 ht
        rcases hsettled t1 ht with h | h
        · obtain ⟨pre, x, post, heq, hpre, hPx⟩ :=
            exists_first_split
              (fun t => validate_type1 fuel rules t emk amk occur value = .ok)
              (fun t => (validate_type1 fuel rules t emk amk occur value).isErr = true)
              alts ⟨t1, ht, h⟩ hsettled
          have hok : validate_type fuel rules (.mk alts) emk amk occur value = .ok := by
            rw [hvt, heq]
            exact vtChoices_ok_of_first fuel rules emk amk occur value pre x post []
              hpre hPx
          rw [hok] at hE
          exact VRes.noConfusion hE
        · exact h
      obtain ⟨es, hes⟩ :=
        exists_forall₂_err fuel rules emk amk occur value alts hall
      have := vtChoices_all_err fuel rules emk amk occur value alts es [] hes
      rw [hvt, this] at hE
      injection hE with hE2
      exact ⟨es, hes, hE2.symm⟩

/-- Witness for C1: with the schema alternatives `"a" / "b"` and value `"b"`,
the first alternative fails, the second succeeds, and the whole type choice
succeeds. -/
theorem validate_type_choice_spec_witness :
    validate_type 3 [] (.mk [.mk (.TextValue "a"), .mk (.TextValue "b")])
      none none none (.String "b") = .ok :=
  (validate_type_choice_spec 3 [] [.mk (.TextValue "a"), .mk (.TextValue "b")]
      none none none (.String "b")).1 [.mk (.TextValue "a")]
    (.mk (.TextValue "b")) [] rfl
    (by
      intro t ht
      simp only [List.mem_singleton] at ht
      subst ht
      simp [validate_type1, validate_type2, VRes.isErr])
    (by simp [validate_type1, validate_type2])

/-- `settled` characterization. -/
theorem VRes.settled_iff (r : VRes) :
    r.settled = true ↔ r = .ok ∨ ∃ e, r = .err e := by
  cases r <;> simp [VRes.settled]

/-- The all-elements iteration succeeds with no recorded error when every
element validates. -/
theorem vgeAll_of_all_ok (fuel : Nat) (rules : List Rule) (ge : GroupEntry)
    (occur : Option Occur) (values : List Value)
    (h : ∀ v ∈ values, validate_group_entry fuel rules ge occur v = .ok) :
    vgeAll fuel rules ge occur values = .res true [] := by
  induction values with
  | nil => rw [vgeAll.eq_def]
  | cons v vs ih =>
    simp only [vgeAll, h v (List.mem_cons_self _ _)]
    exact ih fun v hv => h v (List.mem_cons_of_mem _ hv)

/-- When some element fails (and none aborts), the all-elements iteration
stops at the first failing element and records exactly its error. -/
theorem vgeAll_first_err (fuel : Nat) (rules : List Rule) (ge : GroupEntry)
    (occur : Option Occur) :
    ∀ values : List Value,
    (∀ v ∈ values, (validate_group_entry fuel rules ge occur v).settled = true) →
    ¬(∀ v ∈ values, validate_group_entry fuel rules ge occur v = .ok) →
    ∃ e, vgeAll fuel rules ge occur values = .res false [e] := by
  intro values
  induction values with
  | nil => intro _ hne; exact absurd (by simp) hne
  | cons v vs ih =>
    intro hs hne
    rcases (VRes.settled_iff _).1 (hs v (List.mem_cons_self _ _)) with hok | ⟨e, he⟩
    · have hne2 : ¬(∀ v ∈ vs, validate_group_entry fuel rules ge occur v = .ok) := by
        intro hall
        exact hne fun w hw => (List.mem_cons.1 hw).elim (fun h => h ▸ hok) (hall w)
      obtain ⟨e, he⟩ := ih (fun w hw => hs w (List.mem_cons_of_mem _ hw)) hne2
      refine ⟨e, ?_⟩
      simp only [vgeAll, hok]
      exact he
    · refine ⟨e, ?_⟩
      simp only [vgeAll, he]

/-- When some element validates (and no earlier one aborts), the at-least-one
iteration reports success. -/
theorem vgeAny_of_exists_ok (fuel : Nat) (rules : List Rule) (ge : GroupEntry)
    (occur : Option Occur) :
    ∀ (values : List Value) (errs : List Err),
    (∀ v ∈ values, (validate_group_entry fuel rules ge occur v).settled = true) →
    (∃ v ∈ values, validate_group_entry fuel rules ge occur v = .ok) →
    ∃ errs2, vgeAny fuel rules ge occur values errs = .res true errs2 := by
  intro values
  induction values with
  | nil => rintro errs _ ⟨v, hv, _⟩; exact absurd hv (List.not_mem_nil v)
  | cons v vs ih =>
    intro errs hs hex
    rcases (VRes.settled_iff _).1 (hs v (List.mem_cons_self _ _)) with hok | ⟨e, he⟩
    · refine ⟨errs, ?_⟩
      simp only [vgeAny, hok]
    · have hex2 : ∃ w ∈ vs, validate_group_entry fuel rules ge occur w = .ok := by
        rcases hex with ⟨w, hw, hwok⟩
        rcases List.mem_cons.1 hw with rfl | hwr
        · rw [hwok] at he; exact absurd he (by simp)
        · exact ⟨w, hwr, hwok⟩
      obtain ⟨errs2, h2⟩ := ih (errs ++ [e])
        (fun w hw => hs w (List.mem_cons_of_mem _ hw)) hex2
      refine ⟨errs2, ?_⟩
      simp only [vgeAny, he]
      exact h2

/-- When every element fails, the at-least-one iteration reports failure with
one recorded error per element. -/
theorem vgeAny_all_err (fuel : Nat) (rules : List Rule) (ge : GroupEntry)
    (occur : Option Occur) :
    ∀ (values : List Value) (errs : List Err),
    (∀ v ∈ values, (validate_group_entry fuel rules ge occur v).isErr = true) →
    ∃ es, vgeAny fuel rules ge occur values errs = .res false (errs ++ es) ∧
      es.length = values.length := by
  intro values
  induction values with
  | nil =>
    intro errs _
    refine ⟨[], ?_, rfl⟩
    rw [List.append_nil, vgeAny.eq_def]
  | cons v vs ih =>
    intro errs h
    obtain ⟨e, he⟩ := (VRes.isErr_iff _).1 (h v (List.mem_cons_self _ _))
    obtain ⟨es, hes, hlen⟩ := ih (errs ++ [e])
      (fun w hw => h w (List.mem_cons_of_mem _ hw))
    refine ⟨e :: es, ?_, by simp [hlen]⟩
    simp only [vgeAny, he]
    rw [hes, List.append_assoc, List.singleton_append]

/-- The `TypeGroupname` block returns overall success when the name is a
`Type` rule and every element validates. -/
theorem tgeStep_done_ok (fuel : Nat) (rules : List Rule) (name : Identifier)
    (occur : Option Occur) (values : List Value)
    (hname : hasTypeRuleNamed rules name = true)
    (h : ∀ v ∈ values, validate_group_entry fuel rules
      (.TypeGroupname none name) occur v = .ok) :
    tgeStep fuel rules (.TypeGroupname none name) occur values = .done .ok := by
  simp only [tgeStep, hname, if_true]
  rw [vgeAll_of_all_ok fuel rules (.TypeGroupname none name) occur values h]

/-- The `TypeGroupname` block records the first failing element's error and
falls through when the name is a `Type` rule but some element fails. -/
theorem tgeStep_cont_err (fuel : Nat) (rules : List Rule) (name : Identifier)
    (occur : Option Occur) (values : List Value)
    (hname : hasTypeRuleNamed rules name = true)
    (hs : ∀ v ∈ values, (validate_group_entry fuel rules
      (.TypeGroupname none name) occur v).settled = true)
    (hne : ¬(∀ v ∈ values, validate_group_entry fuel rules
      (.TypeGroupname none name) occur v = .ok)) :
    ∃ e, tgeStep fuel rules (.TypeGroupname none name) occur values =
      .cont [e] := by
  obtain ⟨e, he⟩ := vgeAll_first_err fuel rules (.TypeGroupname none name)
    occur values hs hne
  refine ⟨e, ?_⟩
  simp only [tgeStep, hname, if_true]
  rw [he]

/-- The `TypeGroupname` block falls through with no recorded error when the
name is not a `Type` rule. -/
theorem tgeStep_no_rule (fuel : Nat) (rules : List Rule) (name : Identifier)
    (o : Option Occur) (occur : Option Occur) (values : List Value)
    (hname : hasTypeRuleNamed rules name = false) :
    tgeStep fuel rules (.TypeGroupname o name) occur values = .cont [] := by
  simp only [tgeStep, hname]
  simp

/-- C2 counterexample: in the rule set `t = "a"`, `s = tstr` and the group
choice `(t, s)` against the array `["a", "b"]`, the bare reference `t` names
a `Type` rule and the element `"b"` fails it, yet the whole group choice
succeeds — the later all-elements success of `s` returns before the recorded
failure of `t` is consulted.  This refutes "the entry succeeds only if every
element of the sequence independently validates against that entry". -/
theorem validate_group_choice_type_rule_counterexample :
    validate_group_choice 20
      [.Type_ ⟨⟨"t"⟩, .mk [.mk (.TextValue "a")]⟩,
       .Type_ ⟨⟨"s"⟩, .mk [.mk (.Typename ⟨"tstr"⟩)]⟩]
      (.mk [.TypeGroupname none ⟨"t"⟩, .TypeGroupname none ⟨"s"⟩]) none
      (.Array [.String "a", .String "b"]) = .ok ∧
    hasTypeRuleNamed
      [.Type_ ⟨⟨"t"⟩, .mk [.mk (.TextValue "a")]⟩,
       .Type_ ⟨⟨"s"⟩, .mk [.mk (.Typename ⟨"tstr"⟩)]⟩] ⟨"t"⟩ = true ∧
    (validate_group_entry 20
      [.Type_ ⟨⟨"t"⟩, .mk [.mk (.TextValue "a")]⟩,
       .Type_ ⟨⟨"s"⟩, .mk [.mk (.Typename ⟨"tstr"⟩)]⟩]
      (.TypeGroupname none ⟨"t"⟩) none (.String "b")).isErr = true := by
  refine ⟨?_, by decide, ?_⟩
  · simp [validate_group_choice, vgcEntries, occPreCheck, tgeStep, vgeAll,
      vgeAny, validate_group_entry, validate_rule_for_ident, validate_type_rule,
      validate_type, vtChoices, validate_type1, validate_type2, findRule,
      hasTypeRuleNamed]
  · simp [validate_group_entry, validate_rule_for_ident, validate_type_rule,
      validate_type, vtChoices, validate_type1, validate_type2, findRule,
      VRes.isErr]

/-- The entry loop succeeds when every entry is a bare reference to a
non-`Type`-rule name satisfied by at least one element. -/
theorem vgcEntries_all_any_ok (fuel : Nat) (rules : List Rule)
    (gcStr : String) (occur : Option Occur) :
    ∀ (entries : List GroupEntry) (values : List Value),
    (∀ ge ∈ entries, ∃ name, ge = .TypeGroupname none name ∧
      hasTypeRuleNamed rules name = false) →
    (∀ ge ∈ entries, ∀ v ∈ values,
      (validate_group_entry fuel rules ge occur v).settled = true) →
    (∀ ge ∈ entries, ∃ v ∈ values,
      validate_group_entry fuel rules ge occur v = .ok) →
    vgcEntries fuel rules entries gcStr occur (.Array values) [] = .ok := by
  intro entries
  induction entries with
  | nil => intro values _ _ _; rw [vgcEntries.eq_def]
  | cons ge rest ih =>
    intro values hshape hs hex
    obtain ⟨name, rfl, hname⟩ := hshape ge (List.mem_cons_self _ _)
    obtain ⟨errs2, hany⟩ := vgeAny_of_exists_ok fuel rules
      (.TypeGroupname none name) occur values []
      (hs _ (List.mem_cons_self _ _)) (hex _ (List.mem_cons_self _ _))
    simp only [vgcEntries, occPreCheck,
      tgeStep_no_rule fuel rules name none occur values hname]
    rw [hany]
    exact ih values (fun ge hge => hshape ge (List.mem_cons_of_mem _ hge))
      (fun ge hge => hs ge (List.mem_cons_of_mem _ hge))
      (fun ge hge => hex ge (List.mem_cons_of_mem _ hge))

/-- C2 (amended): for a group choice checked against a sequence, with bare
named-reference entries: (i) an entry naming a `Type` rule makes the whole
choice succeed immediately — later entries untried — as soon as every element
independently validates against it; (ii) a single-entry choice naming a
`Type` rule succeeds exactly when every element validates, the first failing
element's error otherwise dooming the choice; (iii) a single-entry choice
whose name is not a `Type` rule succeeds exactly when the sequence is empty
or at least one element validates; and (iv) entries impose no element
consumption or partitioning — a choice of non-`Type`-rule references
succeeds whenever each entry is satisfied by some element, shared elements
allowed. -/
theorem validate_group_choice_sequence_spec (fuel : Nat) (rules : List Rule)
    (occur : Option Occur) :
    (∀ (name : Identifier) (rest : List GroupEntry) (values : List Value),
      hasTypeRuleNamed rules name = true →
      (∀ v ∈ values, validate_group_entry fuel rules
        (.TypeGroupname none name) occur v = .ok) →
      validate_group_choice fuel rules (.mk (.TypeGroupname none name :: rest))
        occur (.Array values) = .ok) ∧
    (∀ (name : Identifier) (values : List Value),
      hasTypeRuleNamed rules name = true →
      (∀ v ∈ values, (validate_group_entry fuel rules
        (.TypeGroupname none name) occur v).settled = true) →
      (validate_group_choice fuel rules (.mk [.TypeGroupname none name])
          occur (.Array values) = .ok ↔
        ∀ v ∈ values, validate_group_entry fuel rules
          (.TypeGroupname none name) occur v = .ok)) ∧
    (∀ (name : Identifier) (values : List Value),
      hasTypeRuleNamed rules name = false →
      (∀ v ∈ values, (validate_group_entry fuel rules
        (.TypeGroupname none name) occur v).settled = true) →
      (validate_group_choice fuel rules (.mk [.TypeGroupname none name])
          occur (.Array values) = .ok ↔
        (values = [] ∨ ∃ v ∈ values, validate_group_entry fuel rules
          (.TypeGroupname none name) occur v = .ok))) ∧
    (∀ (entries : List GroupEntry) (values : List Value),
      (∀ ge ∈ entries, ∃ name, ge = .TypeGroupname none name ∧
        hasTypeRuleNamed rules name = false) →
      (∀ ge ∈ entries, ∀ v ∈ values,
        (validate_group_entry fuel rules ge occur v).settled = true) →
      (∀ ge ∈ entries, ∃ v ∈ values,
        validate_group_entry fuel rules ge occur v = .ok) →
      validate_group_choice fuel rules (.mk entries) occur (.Array values) =
        .ok) := by
  have himm : ∀ (name : Identifier) (rest : List GroupEntry)
      (values : List Value),
      hasTypeRuleNamed rules name = true →
      (∀ v ∈ values, validate_group_entry fuel rules
        (.TypeGroupname none name) occur v = .ok) →
      validate_group_choice fuel rules (.mk (.TypeGroupname none name :: rest))
        occur (.Array values) = .ok := by
    intro name rest values hname hall
    simp only [validate_group_choice, vgcEntries, occPreCheck,
      tgeStep_done_ok fuel rules name occur values hname hall]
  refine ⟨himm, ?_, ?_, ?_⟩
  · intro name values hname hs
    constructor
    · intro hok
      by_contra hne
      obtain ⟨e, hstep⟩ := tgeStep_cont_err fuel rules name occur values hname
        hs hne
      by_cases hex : ∃ v ∈ values, validate_group_entry fuel rules
          (.TypeGroupname none name) occur v = .ok
      · obtain ⟨errs2, hany⟩ := vgeAny_of_exists_ok fuel rules
          (.TypeGroupname none name) occur values [] hs hex
        rw [validate_group_choice.eq_def] at hok
        simp only [vgcEntries, occPreCheck, hstep] at hok
        rw [hany] at hok
        rw [vgcEntries.eq_def] at hok
        simp at hok
      · have herr : ∀ v ∈ values, (validate_group_entry fuel rules
            (.TypeGroupname none name) occur v).isErr = true := by
          intro v hv
          rcases (VRes.settled_iff _).1 (hs v hv) with h | ⟨e2, h⟩
          · exact absurd ⟨v, hv, h⟩ hex
          · rw [h]; rfl
        obtain ⟨es, hany, hlen⟩ := vgeAny_all_err fuel rules
          (.TypeGroupname none name) occur values [] herr
        have hvne : values ≠ [] := by
          rintro rfl
          exact hne (by simp)
        have hesne : es ≠ [] := by
          intro hc
          rw [hc] at hlen
          exact hvne (List.length_eq_zero.1 hlen.symm)
        rw [validate_group_choice.eq_def] at hok
        simp only [vgcEntries, occPreCheck, hstep] at hok
        rw [hany] at hok
        rw [List.nil_append] at hok
        cases es with
        | nil => exact hesne rfl
        | cons e2 es2 => simp at hok
    · exact himm name [] values hname
  · intro name values hname hs
    constructor
    · intro hok
      by_contra hne
      push_neg at hne
      obtain ⟨hvne, hnook⟩ := hne
      have herr : ∀ v ∈ values, (validate_group_entry fuel rules
          (.TypeGroupname none name) occur v).isErr = true := by
        intro v hv
        rcases (VRes.settled_iff _).1 (hs v hv) with h | ⟨e2, h⟩
        · exact absurd h (hnook v hv)
        · rw [h]; rfl
      obtain ⟨es, hany, hlen⟩ := vgeAny_all_err fuel rules
        (.TypeGroupname none name) occur values [] herr
      have hesne : es ≠ [] := by
        intro hc
        rw [hc] at hlen
        exact hvne (List.length_eq_zero.1 hlen.symm)
      rw [validate_group_choice.eq_def] at hok
      simp only [vgcEntries, occPreCheck,
        tgeStep_no_rule fuel rules name none occur values hname] at hok
      rw [hany] at hok
      rw [List.nil_append] at hok
      cases es with
      | nil => exact hesne rfl
      | cons e2 es2 => simp at hok
    · intro hcase
      rcases hcase with rfl | hex
      · rw [validate_group_choice.eq_def]
        simp [vgcEntries, occPreCheck,
          tgeStep_no_rule fuel rules name none occur [] hname, vgeAny]
      · obtain ⟨errs2, hany⟩ := vgeAny_of_exists_ok fuel rules
          (.TypeGroupname none name) occur values [] hs hex
        rw [validate_group_choice.eq_def]
        simp only [vgcEntries, occPreCheck,
          tgeStep_no_rule fuel rules name none occur values hname]
        rw [hany]
        simp [vgcEntries]
  · intro entries values hshape hs hex
    rw [validate_group_choice.eq_def]
    exact vgcEntries_all_any_ok fuel rules _ occur entries values hshape hs hex

/-- Witness for C2 (amended): the rule set `t = tstr` with choice `(t)`
accepts `["a", "b"]` since every element validates against the `Type` rule
`t`. -/
theorem validate_group_choice_sequence_spec_witness :
    validate_group_choice 9 [.Type_ ⟨⟨"t"⟩, .mk [.mk (.Typename ⟨"tstr"⟩)]⟩]
      (.mk [.TypeGroupname none ⟨"t"⟩]) none
      (.Array [.String "a", .String "b"]) = .ok :=
  (validate_group_choice_sequence_spec 9
    [.Type_ ⟨⟨"t"⟩, .mk [.mk (.Typename ⟨"tstr"⟩)]⟩] none).1 ⟨"t"⟩ []
    [.String "a", .String "b"] (by decide)
    (by
      intro v hv
      simp only [List.mem_cons, List.not_mem_nil, or_false] at hv
      rcases hv with rfl | rfl <;>
        simp [validate_group_entry, validate_rule_for_ident, validate_type_rule,
          validate_type, vtChoices, validate_type1, validate_type2, findRule])

/-- C8 counterexample: a `ValueMemberKey` group entry carrying no member key
reaches `unimplemented!()` in `validate_group_entry` — a panic, not a
structured error. -/
theorem validate_group_entry_no_member_key_panics :
    validate_group_entry 5 [] (.ValueMemberKey none none (.mk [])) none .Null =
      .panic "not implemented" := by
  rw [validate_group_entry.eq_def]

/-- `expect_null` never panics. -/
theorem expect_null_noPanic (ident : String) :
    (expect_null ident).isPanic = false := by
  unfold expect_null
  split <;> rfl

/-- `expect_bool` never panics. -/
theorem expect_bool_noPanic (ident : String) (value : Value) :
    (expect_bool ident value).isPanic = false := by
  unfold expect_bool
  cases value <;> (repeat' split) <;> rfl

/-- `validate_numeric_data_type` never panics. -/
theorem validate_numeric_data_type_noPanic (emk amk : Option String)
    (ident : String) (value : Value) :
    (validate_numeric_data_type emk amk ident value).isPanic = false := by
  unfold validate_numeric_data_type
  cases value <;> (repeat' split) <;> rfl

/-- `validate_numeric_value` never panics. -/
theorem validate_numeric_value_noPanic (t2 : Type2) (value : Value) :
    (validate_numeric_value t2 value).isPanic = false := by
  unfold validate_numeric_value
  cases value <;> (repeat' split) <;> rfl

/-- `validate_array_occurrence` never panics. -/
theorem validate_array_occurrence_noPanic (occur : Occur) (group : String)
    (values : List Value) :
    (validate_array_occurrence occur group values).isPanic = false := by
  unfold validate_array_occurrence
  cases occur <;> (repeat' split) <;> rfl

/-- `occPreCheck` never panics. -/
theorem occPreCheck_noPanic (ge : GroupEntry) (values : List Value) :
    (occPreCheck ge values).isPanic = false := by
  unfold occPreCheck
  cases ge with
  | ValueMemberKey vo mk T => rfl
  | TypeGroupname o name =>
    cases o with
    | none => rfl
    | some oc => exact validate_array_occurrence_noPanic oc name.name values
  | InlineGroup o g =>
    cases o with
    | none => rfl
    | some oc => exact validate_array_occurrence_noPanic oc (groupToString g) values

/-- A rule found by name in a keyless-free rule set is keyless-free. -/
theorem findRule_noKeyless (rules : List Rule) (ident : Identifier)
    (r : Rule) (hrules : rulesNoKeyless rules = true)
    (hfind : findRule rules ident = some r) : ruleNoKeyless r = true := by
  induction rules with
  | nil => exact absurd hfind (by rw [findRule]; simp)
  | cons r0 rest ih =>
    have h0 : ruleNoKeyless r0 = true ∧ rulesNoKeyless rest = true := by
      simpa [rulesNoKeyless, List.all_cons, Bool.and_eq_true] using hrules
    cases r0 with
    | Type_ tr =>
      rw [findRule] at hfind
      by_cases heq : tr.name = ident
      · rw [if_pos heq] at hfind
        injection hfind with hr
        exact hr ▸ h0.1
      · rw [if_neg heq] at hfind
        exact ih h0.2 hfind
    | Group_ gr =>
      rw [findRule] at hfind
      by_cases heq : gr.name = ident
      · rw [if_pos heq] at hfind
        injection hfind with hr
        exact hr ▸ h0.1
      · rw [if_neg heq] at hfind
        exact ih h0.2 hfind

/-- The first `Type` rule of a keyless-free rule set has a keyless-free
body. -/
theorem firstTypeRule_noKeyless (rules : List Rule) (tr : TypeRule)
    (hrules : rulesNoKeyless rules = true)
    (hfirst : firstTypeRule rules = some tr) : tyNoKeyless tr.value = true := by
  induction rules with
  | nil => exact absurd hfirst (by rw [firstTypeRule]; simp)
  | cons r0 rest ih =>
    have h0 : ruleNoKeyless r0 = true ∧ rulesNoKeyless rest = true := by
      simpa [rulesNoKeyless, List.all_cons, Bool.and_eq_true] using hrules
    cases r0 with
    | Type_ tr0 =>
      rw [firstTypeRule] at hfirst
      injection hfirst with hr
      exact hr ▸ h0.1
    | Group_ gr =>
      rw [firstTypeRule] at hfirst
      exact ih h0.2 hfirst

mutual

/-- Rule lookup never panics on a keyless-free rule set. -/
theorem validate_rule_for_ident_noPanic (fuel : Nat) (rules : List Rule)
    (ident : Identifier) (emk amk : Option String) (occur : Option Occur)
    (value : Value) (hrules : rulesNoKeyless rules = true) :
    (validate_rule_for_ident fuel rules ident emk amk occur value).isPanic =
      false := by
  cases fuel with
  | zero => simp only [validate_rule_for_ident, VRes.isPanic]
  | succ f =>
    simp only [validate_rule_for_ident]
    cases hfind : findRule rules ident with
    | none => rfl
    | some r =>
      have hr := findRule_noKeyless rules ident r hrules hfind
      cases r with
      | Type_ tr =>
        exact validate_type_rule_noPanic f rules tr emk amk occur value hrules hr
      | Group_ gr =>
        exact validate_group_rule_noPanic f rules gr occur value hrules hr
termination_by (fuel, 0)

/-- `validate_type_rule` never panics on keyless-free input. -/
theorem validate_type_rule_noPanic (fuel : Nat) (rules : List Rule)
    (tr : TypeRule) (emk amk : Option String) (occur : Option Occur)
    (value : Value) (hrules : rulesNoKeyless rules = true)
    (htr : tyNoKeyless tr.value = true) :
    (validate_type_rule fuel rules tr emk amk occur value).isPanic = false := by
  simp only [validate_type_rule]
  exact validate_type_noPanic fuel rules tr.value emk amk occur value hrules htr
termination_by (fuel, sizeOf tr.value + sizeOf value + 1)

/-- `validate_group_rule` never panics on keyless-free input. -/
theorem validate_group_rule_noPanic (fuel : Nat) (rules : List Rule)
    (gr : GroupRule) (occur : Option Occur) (value : Value)
    (hrules : rulesNoKeyless rules = true)
    (hgr : groupEntryNoKeyless gr.entry = true) :
    (validate_group_rule fuel rules gr occur value).isPanic = false := by
  simp only [validate_group_rule]
  exact validate_group_entry_noPanic fuel rules gr.entry occur value hrules hgr
termination_by (fuel, sizeOf gr.entry + sizeOf value + 1)

/-- `validate_type` never panics on keyless-free input. -/
theorem validate_type_noPanic (fuel : Nat) (rules : List Rule) (t : Ty)
    (emk amk : Option String) (occur : Option Occur) (value : Value)
    (hrules : rulesNoKeyless rules = true) (ht : tyNoKeyless t = true) :
    (validate_type fuel rules t emk amk occur value).isPanic = false := by
  cases t with
  | mk alternatives =>
    simp only [validate_type]
    exact vtChoices_noPanic fuel rules alternatives emk amk occur value []
      hrules (by simpa [tyNoKeyless] using ht)
termination_by (fuel, sizeOf t + sizeOf value)

/-- The type-choice loop never panics on keyless-free input. -/
theorem vtChoices_noPanic (fuel : Nat) (rules : List Rule)
    (alts : List Type1) (emk amk : Option String) (occur : Option Occur)
    (value : Value) (errs : List Err) (hrules : rulesNoKeyless rules = true)
    (halts : type1ListNoKeyless alts = true) :
    (vtChoices fuel rules alts emk amk occur value errs).isPanic = false := by
  cases alts with
  | nil => simp only [vtChoices, VRes.isPanic]
  | cons t1 rest =>
    have h1 : type1NoKeyless t1 = true ∧ type1ListNoKeyless rest = true := by
      simpa [type1ListNoKeyless, Bool.and_eq_true] using halts
    have hp := validate_type1_noPanic fuel rules t1 emk amk occur value hrules h1.1
    simp only [vtChoices]
    cases hres : validate_type1 fuel rules t1 emk amk occur value with
    | ok => rfl
    | err e =>
      exact vtChoices_noPanic fuel rules rest emk amk occur value (errs ++ [e])
        hrules h1.2
    | panic s => rw [hres] at hp; exact absurd hp (by simp [VRes.isPanic])
    | fuelOut => rfl
termination_by (fuel, sizeOf alts + sizeOf value)

/-- `validate_type1` never panics on keyless-free input. -/
theorem validate_type1_noPanic (fuel : Nat) (rules : List Rule) (t1 : Type1)
    (emk amk : Option String) (occur : Option Occur) (value : Value)
    (hrules : rulesNoKeyless rules = true) (ht1 : type1NoKeyless t1 = true) :
    (validate_type1 fuel rules t1 emk amk occur value).isPanic = false := by
  cases t1 with
  | mk t2 =>
    simp only [validate_type1]
    exact validate_type2_noPanic fuel rules t2 emk amk occur value hrules
      (by simpa [type1NoKeyless] using ht1)
termination_by (fuel, sizeOf t1 + sizeOf value)

/-- `validate_type2` never panics on keyless-free input. -/
theorem validate_type2_noPanic (fuel : Nat) (rules : List Rule) (t2 : Type2)
    (emk amk : Option String) (occur : Option Occur) (value : Value)
    (hrules : rulesNoKeyless rules = true) (ht2 : type2NoKeyless t2 = true) :
    (validate_type2 fuel rules t2 emk amk occur value).isPanic = false := by
  cases t2 with
  | TextValue t =>
    cases value <;> simp only [validate_type2] <;> (repeat' split) <;>
      simp only [VRes.isPanic]
  | IntValue i =>
    cases value <;> simp only [validate_type2] <;> first
      | rfl
      | exact validate_numeric_value_noPanic _ _
  | UintValue u =>
    cases value <;> simp only [validate_type2] <;> rfl
  | FloatValue q =>
    cases value <;> simp only [validate_type2] <;> first
      | rfl
      | exact validate_numeric_value_noPanic _ _
  | Typename tn =>
    cases value with
    | Null =>
      simp only [validate_type2]
      exact expect_null_noPanic tn.name
    | Bool b =>
      simp only [validate_type2]
      exact expect_bool_noPanic tn.name (.Bool b)
    | String s =>
      simp only [validate_type2]
      split
      · simp only [VRes.isPanic]
      · split
        · simp only [VRes.isPanic]
        · exact validate_rule_for_ident_noPanic fuel rules tn emk amk occur
            (.String s) hrules
    | Number n =>
      simp only [validate_type2]
      exact validate_numeric_data_type_noPanic emk amk tn.name (.Number n)
    | Object om =>
      simp only [validate_type2]
      exact validate_rule_for_ident_noPanic fuel rules tn emk amk occur
        (.Object om) hrules
    | Array vs =>
      simp only [validate_type2]
      exact validate_rule_for_ident_noPanic fuel rules tn emk amk occur
        (.Array vs) hrules
  | Array g =>
    have hg : groupNoKeyless g = true := by simpa [type2NoKeyless] using ht2
    cases value <;> simp only [validate_type2] <;> first
      | rfl
      | exact validate_group_noPanic fuel rules g occur _ hrules hg
  | Map g =>
    have hg : groupNoKeyless g = true := by simpa [type2NoKeyless] using ht2
    cases value <;> simp only [validate_type2] <;> first
      | rfl
      | exact validate_group_noPanic fuel rules g occur _ hrules hg
  | Unsupported d => simp only [validate_type2, VRes.isPanic]
termination_by (fuel, sizeOf t2 + sizeOf value)

/-- `validate_group` never panics on keyless-free input. -/
theorem validate_group_noPanic (fuel : Nat) (rules : List Rule) (g : Group)
    (occur : Option Occur) (value : Value)
    (hrules : rulesNoKeyless rules = true) (hg : groupNoKeyless g = true) :
    (validate_group fuel rules g occur value).isPanic = false := by
  cases g with
  | mk choices =>
    simp only [validate_group]
    exact vgChoices_noPanic fuel rules choices occur value [] hrules
      (by simpa [groupNoKeyless] using hg)
termination_by (fuel, sizeOf g + sizeOf value)

/-- The group-choice loop never panics on keyless-free input. -/
theorem vgChoices_noPanic (fuel : Nat) (rules : List Rule)
    (gcs : List GroupChoice) (occur : Option Occur) (value : Value)
    (errs : List Err) (hrules : rulesNoKeyless rules = true)
    (hgcs : groupChoiceListNoKeyless gcs = true) :
    (vgChoices fuel rules gcs occur value errs).isPanic = false := by
  cases gcs with
  | nil => simp only [vgChoices, VRes.isPanic]
  | cons gc rest =>
    have h1 : groupChoiceNoKeyless gc = true ∧
        groupChoiceListNoKeyless rest = true := by
      simpa [groupChoiceListNoKeyless, Bool.and_eq_true] using hgcs
    have hp := validate_group_choice_noPanic fuel rules gc occur value hrules h1.1
    simp only [vgChoices]
    cases hres : validate_group_choice fuel rules gc occur value with
    | ok => rfl
    | err e =>
      exact vgChoices_noPanic fuel rules rest occur value (errs ++ [e])
        hrules h1.2
    | panic s => rw [hres] at hp; exact absurd hp (by simp [VRes.isPanic])
    | fuelOut => rfl
termination_by (fuel, sizeOf gcs + sizeOf value)

/-- `validate_group_choice` never panics on keyless-free input. -/
theorem validate_group_choice_noPanic (fuel : Nat) (rules : List Rule)
    (gc : GroupChoice) (occur : Option Occur) (value : Value)
    (hrules : rulesNoKeyless rules = true)
    (hgc : groupChoiceNoKeyless gc = true) :
    (validate_group_choice fuel rules gc occur value).isPanic = false := by
  cases gc with
  | mk entries =>
    simp only [validate_group_choice]
    exact vgcEntries_noPanic fuel rules entries _ occur value [] hrules
      (by simpa [groupChoiceNoKeyless] using hgc)
termination_by (fuel, sizeOf gc + sizeOf value)

/-- The entry loop never panics on keyless-free input. -/
theorem vgcEntries_noPanic (fuel : Nat) (rules : List Rule)
    (entries : List GroupEntry) (gcStr : String) (occur : Option Occur)
    (value : Value) (errs : List Err)
    (hrules : rulesNoKeyless rules = true)
    (hentries : groupEntryListNoKeyless entries = true) :
    (vgcEntries fuel rules entries gcStr occur value errs).isPanic = false := by
  cases entries with
  | nil =>
    cases errs <;> simp only [vgcEntries, VRes.isPanic]
  | cons ge rest =>
    have h1 : groupEntryNoKeyless ge = true ∧
        groupEntryListNoKeyless rest = true := by
      simpa [groupEntryListNoKeyless, Bool.and_eq_true] using hentries
    cases value with
    | Array values =>
      simp only [vgcEntries]
      have hocc := occPreCheck_noPanic ge values
      cases hr1 : occPreCheck ge values with
      | ok =>
        have hstep := tgeStep_noPanic fuel rules ge occur values hrules h1.1
        cases hr2 : tgeStep fuel rules ge occur values with
        | done r =>
          cases r with
          | ok => rfl
          | err e => rfl
          | panic s =>
            rw [hr2] at hstep
            exact absurd hstep (by simp [TGStep.isDonePanic])
          | fuelOut => rfl
        | cont extra =>
          have hany := vgeAny_noPanic fuel rules ge occur values [] hrules h1.1
          cases hr3 : vgeAny fuel rules ge occur values [] with
          | res b es =>
            cases b with
            | true =>
              exact vgcEntries_noPanic fuel rules rest gcStr occur
                (.Array values) (errs ++ extra) hrules h1.2
            | false =>
              cases es with
              | nil =>
                exact vgcEntries_noPanic fuel rules rest gcStr occur
                  (.Array values) (errs ++ extra) hrules h1.2
              | cons e es2 => rfl
          | panic s =>
            rw [hr3] at hany
            exact absurd hany (by simp [LoopRes.isPanic])
          | fuelOut => rfl
      | err e => rfl
      | panic s =>
        rw [hr1] at hocc
        exact absurd hocc (by simp [VRes.isPanic])
      | fuelOut => rfl
    | Object om =>
      simp only [vgcEntries]
      have hp := validate_group_entry_noPanic fuel rules ge occur (.Object om)
        hrules h1.1
      cases hres : validate_group_entry fuel rules ge occur (.Object om) with
      | ok =>
        exact vgcEntries_noPanic fuel rules rest gcStr occur (.Object om)
          errs hrules h1.2
      | err e =>
        exact vgcEntries_noPanic fuel rules rest gcStr occur (.Object om)
          (errs ++ [e]) hrules h1.2
      | panic s => rw [hres] at hp; exact absurd hp (by simp [VRes.isPanic])
      | fuelOut => rfl
    | Null => simp only [vgcEntries, VRes.isPanic]
    | Bool b => simp only [vgcEntries, VRes.isPanic]
    | Number n => simp only [vgcEntries, VRes.isPanic]
    | String s => simp only [vgcEntries, VRes.isPanic]
termination_by (fuel, sizeOf entries + sizeOf value)

/-- The `TypeGroupname` block never ends in an early panic on keyless-free
input. -/
theorem tgeStep_noPanic (fuel : Nat) (rules : List Rule) (ge : GroupEntry)
    (occur : Option Occur) (values : List Value)
    (hrules : rulesNoKeyless rules = true)
    (hge : groupEntryNoKeyless ge = true) :
    (tgeStep fuel rules ge occur values).isDonePanic = false := by
  cases ge with
  | ValueMemberKey vo mk T => simp only [tgeStep, TGStep.isDonePanic]
  | InlineGroup o g => simp only [tgeStep, TGStep.isDonePanic]
  | TypeGroupname o name =>
    simp only [tgeStep]
    split
    · have hall := vgeAll_noPanic fuel rules (.TypeGroupname o name) occur
        values hrules (by rfl)
      cases hres : vgeAll fuel rules (.TypeGroupname o name) occur values with
      | res b es => cases b <;> rfl
      | panic s => rw [hres] at hall; exact absurd hall (by simp [LoopRes.isPanic])
      | fuelOut => rfl
    · simp only [TGStep.isDonePanic]
termination_by (fuel, sizeOf ge + sizeOf values + 1)

/-- The all-elements iteration never panics on keyless-free input. -/
theorem vgeAll_noPanic (fuel : Nat) (rules : List Rule) (ge : GroupEntry)
    (occur : Option Occur) (values : List Value)
    (hrules : rulesNoKeyless rules = true)
    (hge : groupEntryNoKeyless ge = true) :
    (vgeAll fuel rules ge occur values).isPanic = false := by
  cases values with
  | nil => simp only [vgeAll, LoopRes.isPanic]
  | cons v vs =>
    have hp := validate_group_entry_noPanic fuel rules ge occur v hrules hge
    simp only [vgeAll]
    cases hres : validate_group_entry fuel rules ge occur v with
    | ok => exact vgeAll_noPanic fuel rules ge occur vs hrules hge
    | err e => rfl
    | panic s => rw [hres] at hp; exact absurd hp (by simp [VRes.isPanic])
    | fuelOut => rfl
termination_by (fuel, sizeOf ge + sizeOf values)

/-- The at-least-one iteration never panics on keyless-free input. -/
theorem vgeAny_noPanic (fuel : Nat) (rules : List Rule) (ge : GroupEntry)
    (occur : Option Occur) (values : List Value) (errs : List Err)
    (hrules : rulesNoKeyless rules = true)
    (hge : groupEntryNoKeyless ge = true) :
    (vgeAny fuel rules ge occur values errs).isPanic = false := by
  cases values with
  | nil => simp only [vgeAny, LoopRes.isPanic]
  | cons v vs =>
    have hp := validate_group_entry_noPanic fuel rules ge occur v hrules hge
    simp only [vgeAny]
    cases hres : validate_group_entry fuel rules ge occur v with
    | ok => rfl
    | err e => exact vgeAny_noPanic fuel rules ge occur vs (errs ++ [e]) hrules hge
    | panic s => rw [hres] at hp; exact absurd hp (by simp [VRes.isPanic])
    | fuelOut => rfl
termination_by (fuel, sizeOf ge + sizeOf values)

/-- `validate_group_entry` never panics when the entry and the rule set are
keyless-free. -/
theorem validate_group_entry_noPanic (fuel : Nat) (rules : List Rule)
    (ge : GroupEntry) (occur : Option Occur) (value : Value)
    (hrules : rulesNoKeyless rules = true)
    (hge : groupEntryNoKeyless ge = true) :
    (validate_group_entry fuel rules ge occur value).isPanic = false := by
  cases fuel with
  | zero => simp only [validate_group_entry.eq_def, VRes.isPanic]
  | succ f =>
    cases ge with
    | ValueMemberKey vo mkey T =>
      have hT : mkey.isSome = true ∧ tyNoKeyless T = true := by
        simpa [groupEntryNoKeyless, Bool.and_eq_true] using hge
      cases mkey with
      | none => exact absurd hT.1 (by simp)
      | some mk =>
        cases mk with
        | Type1 t1 cut =>
          cases t1 with
          | mk t2 =>
            cases t2 with
            | TextValue t =>
              cases value with
              | Object om =>
                simp only [validate_group_entry.eq_def]
                cases hget : objGet om t with
                | some v =>
                  simp only [Option.elim]
                  exact validate_type_noPanic f rules T _ _ occur v hrules hT.2
                | none =>
                  simp only [Option.elim]
                  split
                  · exact validate_type_noPanic f rules T _ _ occur
                      (.Object om) hrules hT.2
                  · simp only [VRes.isPanic]
              | Null =>
                simp only [validate_group_entry.eq_def]
                exact validate_type_noPanic f rules T _ _ occur .Null hrules hT.2
              | Bool b =>
                simp only [validate_group_entry.eq_def]
                exact validate_type_noPanic f rules T _ _ occur (.Bool b) hrules hT.2
              | Number n =>
                simp only [validate_group_entry.eq_def]
                exact validate_type_noPanic f rules T _ _ occur (.Number n) hrules hT.2
              | String s =>
                simp only [validate_group_entry.eq_def]
                exact validate_type_noPanic f rules T _ _ occur (.String s) hrules hT.2
              | Array vs =>
                simp only [validate_group_entry.eq_def]
                exact validate_type_noPanic f rules T _ _ occur (.Array vs) hrules hT.2
            | Typename tn =>
              simp only [validate_group_entry.eq_def]
              split <;> simp only [VRes.isPanic]
            | IntValue i => simp only [validate_group_entry.eq_def, VRes.isPanic]
            | UintValue u => simp only [validate_group_entry.eq_def, VRes.isPanic]
            | FloatValue q => simp only [validate_group_entry.eq_def, VRes.isPanic]
            | Array g2 => simp only [validate_group_entry.eq_def, VRes.isPanic]
            | Map g2 => simp only [validate_group_entry.eq_def, VRes.isPanic]
            | Unsupported d => simp only [validate_group_entry.eq_def, VRes.isPanic]
        | Bareword ident =>
          cases value with
          | Object om =>
            simp only [validate_group_entry.eq_def]
            cases hget : objGet om ident.name with
            | some v =>
              simp only [Option.elim]
              exact validate_type_noPanic f rules T _ _ vo v hrules hT.2
            | none =>
              simp only [Option.elim]
              split
              · exact validate_type_noPanic f rules T _ _ vo (.Object om)
                  hrules hT.2
              · cases occur with
                | none => simp only [VRes.isPanic]
                | some o => cases o <;> simp only [VRes.isPanic]
          | Null =>
            simp only [validate_group_entry.eq_def]
            exact validate_type_noPanic f rules T _ _ vo .Null hrules hT.2
          | Bool b =>
            simp only [validate_group_entry.eq_def]
            exact validate_type_noPanic f rules T _ _ vo (.Bool b) hrules hT.2
          | Number n =>
            simp only [validate_group_entry.eq_def]
            exact validate_type_noPanic f rules T _ _ vo (.Number n) hrules hT.2
          | String s =>
            simp only [validate_group_entry.eq_def]
            exact validate_type_noPanic f rules T _ _ vo (.String s) hrules hT.2
          | Array vs =>
            simp only [validate_group_entry.eq_def]
            exact validate_type_noPanic f rules T _ _ vo (.Array vs) hrules hT.2
        | Value v => simp only [validate_group_entry.eq_def, VRes.isPanic]
    | TypeGroupname tOccur name =>
      simp only [validate_group_entry.eq_def]
      exact validate_rule_for_ident_noPanic f rules name none none tOccur value
        hrules
    | InlineGroup igo g =>
      have hg : groupNoKeyless g = true := by
        simpa [groupEntryNoKeyless] using hge
      cases igo with
      | some oc =>
        simp only [validate_group_entry.eq_def]
        exact validate_group_noPanic f rules g (some oc) value hrules hg
      | none =>
        simp only [validate_group_entry.eq_def]
        exact validate_group_noPanic f rules g occur value hrules hg
termination_by (fuel, sizeOf ge + sizeOf value)

end

/-- C8 (amended): on a syntax tree free of keyless `ValueMemberKey` entries,
every validation entry point returns success, a structured error, or an
exhausted recursion budget — never a panic; with a keyless `ValueMemberKey`
entry, `validate_group_entry` panics (`unimplemented!()`), as the
counterexample shows. -/
theorem validation_no_panic (fuel : Nat) (rules : List Rule) (value : Value)
    (hrules : rulesNoKeyless rules = true) :
    (validate fuel rules value).isPanic = false ∧
    (∀ ident emk amk occur,
      (validate_rule_for_ident fuel rules ident emk amk occur value).isPanic =
        false) ∧
    (∀ tr, tyNoKeyless tr.value = true → ∀ emk amk occur,
      (validate_type_rule fuel rules tr emk amk occur value).isPanic = false) ∧
    (∀ gr, groupEntryNoKeyless gr.entry = true → ∀ occur,
      (validate_group_rule fuel rules gr occur value).isPanic = false) := by
  refine ⟨?_, ?_, ?_, ?_⟩
  · cases fuel with
    | zero => rfl
    | succ f =>
      simp only [validate]
      cases hfirst : firstTypeRule rules with
      | none => rfl
      | some tr =>
        exact validate_type_rule_noPanic f rules tr none none none value hrules
          (firstTypeRule_noKeyless rules tr hrules hfirst)
  · intro ident emk amk occur
    exact validate_rule_for_ident_noPanic fuel rules ident emk amk occur value
      hrules
  · intro tr htr emk amk occur
    exact validate_type_rule_noPanic fuel rules tr emk amk occur value hrules htr
  · intro gr hgr occur
    exact validate_group_rule_noPanic fuel rules gr occur value hrules hgr

/-- Witness for C8 (amended): a keyless-free rule set validates without
panicking. -/
theorem validation_no_panic_witness :
    (validate 5 [.Type_ ⟨⟨"a"⟩, .mk [.mk (.TextValue "x")]⟩] .Null).isPanic =
      false :=
  (validation_no_panic 5 [.Type_ ⟨⟨"a"⟩, .mk [.mk (.TextValue "x")]⟩] .Null
    rfl).1

end CddlJson
